import Mathlib

/-!
RISC-V instruction decoder (`src/isa/decoder.cpp`).

A shallow embedding of `decode` and of the `Instruction` record it fills.
Unsigned machine integers are natural numbers; every store into a
`uint8_t` or `uint32_t` object is written as an explicit reduction modulo
`2^8` or `2^32`.
-/

namespace RiscvDecoder

/-! ## Data model (`decoder.hpp`) -/

/-- The `enum class Opcode` of `decoder.hpp`, in declaration order. -/
inductive Opcode where
  | LUI | AUIPC | JAL | JALR
  | BRANCH | LOAD | STORE
  | OP_IMM | OP | SYSTEM
  | INVALID
  deriving DecidableEq, Repr

/-- The `struct Instruction` of `decoder.hpp`: `fetchInstr` and `imm` are
`uint32_t`, the register and funct fields are `uint8_t`. -/
structure Instruction where
  fetchInstr : Nat
  opcode : Opcode
  rs1 : Nat
  rs2 : Nat
  rd : Nat
  imm : Nat
  funct3 : Nat
  funct7 : Nat
  debugMnemonic : String
  deriving DecidableEq, Repr

/-- Truncation of a value stored into a `uint8_t`. -/
def u8 (x : Nat) : Nat := x % 2 ^ 8

/-- Truncation of a value computed in `uint32_t` arithmetic. -/
def u32 (x : Nat) : Nat := x % 2 ^ 32

/-! ## The decoder (`decoder.cpp`) -/

/-- The first `switch` of `decode`: the class and the label chosen for the
value of `opcode_field`. -/
def classify (opcode_field : Nat) : Opcode × String :=
  if opcode_field = 0x37 then (Opcode.LUI, "LUI")
  else if opcode_field = 0x17 then (Opcode.AUIPC, "AUIPC")
  else if opcode_field = 0x6F then (Opcode.JAL, "JAL")
  else if opcode_field = 0x67 then (Opcode.JALR, "JALR")
  else if opcode_field = 0x63 then (Opcode.BRANCH, "BRANCH")
  else if opcode_field = 0x03 then (Opcode.LOAD, "LOAD")
  else if opcode_field = 0x23 then (Opcode.STORE, "STORE")
  else if opcode_field = 0x13 then (Opcode.OP_IMM, "OP_IMM")
  else if opcode_field = 0x33 then (Opcode.OP, "OP")
  else if opcode_field = 0x73 then (Opcode.SYSTEM, "SYSTEM")
  else (Opcode.INVALID, "INVALID")

/-- The second `switch` of `decode`: the immediate rebuilt from the word,
selected by the class the first switch stored in `instr.opcode`. -/
def decodeImm (opcode : Opcode) (fetchInstr : Nat) : Nat :=
  match opcode with
  | Opcode.LUI | Opcode.AUIPC =>
      fetchInstr &&& 0xFFFFF000
  | Opcode.JAL =>
      let imm20 := (fetchInstr >>> 31) &&& 0x1
      let imm10_1 := (fetchInstr >>> 21) &&& 0x3FF
      let imm11 := (fetchInstr >>> 20) &&& 0x1
      let imm19_12 := (fetchInstr >>> 12) &&& 0xFF
      let imm := u32 (imm20 <<< 20) ||| u32 (imm19_12 <<< 12) ||| u32 (imm11 <<< 11)
        ||| u32 (imm10_1 <<< 1)
      if imm20 ≠ 0 then imm ||| 0xFFF00000 else imm
  | Opcode.BRANCH =>
      let imm12 := (fetchInstr >>> 31) &&& 0x1
      let imm10_5 := (fetchInstr >>> 25) &&& 0x3F
      let imm4_1 := (fetchInstr >>> 8) &&& 0xF
      let imm11 := (fetchInstr >>> 7) &&& 0x1
      let imm := u32 (imm12 <<< 12) ||| u32 (imm11 <<< 11) ||| u32 (imm10_5 <<< 5)
        ||| u32 (imm4_1 <<< 1)
      if imm12 ≠ 0 then imm ||| 0xFFFFE000 else imm
  | Opcode.STORE =>
      let imm11_5 := (fetchInstr >>> 25) &&& 0x7F
      let imm4_0 := (fetchInstr >>> 7) &&& 0x1F
      let imm := u32 (imm11_5 <<< 5) ||| imm4_0
      if imm11_5 &&& 0x40 ≠ 0 then imm ||| 0xFFFFF000 else imm
  | Opcode.LOAD | Opcode.JALR | Opcode.OP_IMM | Opcode.SYSTEM =>
      let imm := (fetchInstr >>> 20) &&& 0xFFF
      if imm &&& 0x800 ≠ 0 then imm ||| 0xFFFFF000 else imm
  | Opcode.OP | Opcode.INVALID =>
      0

/-- The function `decode` of `decoder.cpp`: base fields, classification,
then the immediate. -/
def decode (fetchInstr : Nat) : Instruction :=
  let opcode_field := u8 (fetchInstr &&& 0x7F)
  let rd := u8 ((fetchInstr >>> 7) &&& 0x1F)
  let funct3 := u8 ((fetchInstr >>> 12) &&& 0x07)
  let rs1 := u8 ((fetchInstr >>> 15) &&& 0x1F)
  let rs2 := u8 ((fetchInstr >>> 20) &&& 0x1F)
  let funct7 := u8 ((fetchInstr >>> 25) &&& 0x7F)
  let cls := classify opcode_field
  { fetchInstr := fetchInstr
    opcode := cls.1
    rs1 := rs1
    rs2 := rs2
    rd := rd
    imm := decodeImm cls.1 fetchInstr
    funct3 := funct3
    funct7 := funct7
    debugMnemonic := cls.2 }

/-! ## Vocabulary of the statements -/

/-- The field `x[hi:lo]` of a word, as a number. -/
def bits (x hi lo : Nat) : Nat := x / 2 ^ lo % 2 ^ (hi + 1 - lo)

/-- The ten primary opcode values the decoder knows. -/
def knownOpcodes : List Nat :=
  [0x37, 0x17, 0x6F, 0x67, 0x63, 0x03, 0x23, 0x13, 0x33, 0x73]

/-- The R-type word built from its five fields and the primary opcode `0x33`. -/
def encodeR (funct7 rs2 rs1 funct3 rd : Nat) : Nat :=
  (funct7 <<< 25) ||| (rs2 <<< 20) ||| (rs1 <<< 15) ||| (funct3 <<< 12) ||| (rd <<< 7) ||| 0x33

/-- The natural width of the immediate of a class, the number of low result
bits its format takes from the word: 21 for J, 13 for B, 12 for S and I, 32
for U; 0 for the classes without an immediate. -/
def immWidth : Opcode → Nat
  | Opcode.JAL => 21
  | Opcode.BRANCH => 13
  | Opcode.STORE | Opcode.LOAD | Opcode.JALR | Opcode.OP_IMM | Opcode.SYSTEM => 12
  | Opcode.LUI | Opcode.AUIPC => 32
  | Opcode.OP | Opcode.INVALID => 0

/-- The U-type word built from a 20-bit value, `rd` and the primary opcode
`0x37`, as the test `DecodesLUI` writes it. -/
def encodeU (v rd : Nat) : Nat :=
  (v <<< 12) ||| (rd <<< 7) ||| 0x37

/-- The name of a class, as spelled in `enum class Opcode`. -/
def className : Opcode → String
  | Opcode.LUI => "LUI"
  | Opcode.AUIPC => "AUIPC"
  | Opcode.JAL => "JAL"
  | Opcode.JALR => "JALR"
  | Opcode.BRANCH => "BRANCH"
  | Opcode.LOAD => "LOAD"
  | Opcode.STORE => "STORE"
  | Opcode.OP_IMM => "OP_IMM"
  | Opcode.OP => "OP"
  | Opcode.SYSTEM => "SYSTEM"
  | Opcode.INVALID => "INVALID"

/-- The primary opcode value of each of the ten known classes; INVALID has
none of its own. -/
def opcodeField : Opcode → Option Nat
  | Opcode.LUI => some 0x37
  | Opcode.AUIPC => some 0x17
  | Opcode.JAL => some 0x6F
  | Opcode.JALR => some 0x67
  | Opcode.BRANCH => some 0x63
  | Opcode.LOAD => some 0x03
  | Opcode.STORE => some 0x23
  | Opcode.OP_IMM => some 0x13
  | Opcode.OP => some 0x33
  | Opcode.SYSTEM => some 0x73
  | Opcode.INVALID => none

/-- A right shift of a `uint32_t`, defined only for a shift amount below the
width of the type. -/
def shr32 (x k : Nat) : Option Nat :=
  if k < 32 then some (x >>> k) else none

/-- A left shift of a `uint32_t`, defined only for a shift amount below the
width of the type; the result is truncated to 32 bits. -/
def shl32 (x k : Nat) : Option Nat :=
  if k < 32 then some (u32 (x <<< k)) else none

/-- The second `switch` of `decode` with every shift checked: `none` stands
for a step that has no defined result. -/
def decodeImmChecked (opcode : Opcode) (fetchInstr : Nat) : Option Nat :=
  match opcode with
  | Opcode.LUI | Opcode.AUIPC =>
      some (fetchInstr &&& 0xFFFFF000)
  | Opcode.JAL => do
      let imm20 := (← shr32 fetchInstr 31) &&& 0x1
      let imm10_1 := (← shr32 fetchInstr 21) &&& 0x3FF
      let imm11 := (← shr32 fetchInstr 20) &&& 0x1
      let imm19_12 := (← shr32 fetchInstr 12) &&& 0xFF
      let imm := (← shl32 imm20 20) ||| (← shl32 imm19_12 12) ||| (← shl32 imm11 11)
        ||| (← shl32 imm10_1 1)
      pure (if imm20 ≠ 0 then imm ||| 0xFFF00000 else imm)
  | Opcode.BRANCH => do
      let imm12 := (← shr32 fetchInstr 31) &&& 0x1
      let imm10_5 := (← shr32 fetchInstr 25) &&& 0x3F
      let imm4_1 := (← shr32 fetchInstr 8) &&& 0xF
      let imm11 := (← shr32 fetchInstr 7) &&& 0x1
      let imm := (← shl32 imm12 12) ||| (← shl32 imm11 11) ||| (← shl32 imm10_5 5)
        ||| (← shl32 imm4_1 1)
      pure (if imm12 ≠ 0 then imm ||| 0xFFFFE000 else imm)
  | Opcode.STORE => do
      let imm11_5 := (← shr32 fetchInstr 25) &&& 0x7F
      let imm4_0 := (← shr32 fetchInstr 7) &&& 0x1F
      let imm := (← shl32 imm11_5 5) ||| imm4_0
      pure (if imm11_5 &&& 0x40 ≠ 0 then imm ||| 0xFFFFF000 else imm)
  | Opcode.LOAD | Opcode.JALR | Opcode.OP_IMM | Opcode.SYSTEM => do
      let imm := (← shr32 fetchInstr 20) &&& 0xFFF
      pure (if imm &&& 0x800 ≠ 0 then imm ||| 0xFFFFF000 else imm)
  | Opcode.OP | Opcode.INVALID =>
      some 0

/-- The function `decode` with every shift checked: it returns `none` as soon
as one step has no defined result. -/
def decodeChecked (fetchInstr : Nat) : Option Instruction := do
  let opcode_field := u8 (fetchInstr &&& 0x7F)
  let rd := u8 ((← shr32 fetchInstr 7) &&& 0x1F)
  let funct3 := u8 ((← shr32 fetchInstr 12) &&& 0x07)
  let rs1 := u8 ((← shr32 fetchInstr 15) &&& 0x1F)
  let rs2 := u8 ((← shr32 fetchInstr 20) &&& 0x1F)
  let funct7 := u8 ((← shr32 fetchInstr 25) &&& 0x7F)
  let cls := classify opcode_field
  let imm ← decodeImmChecked cls.1 fetchInstr
  pure
    { fetchInstr := fetchInstr
      opcode := cls.1
      rs1 := rs1
      rs2 := rs2
      rd := rd
      imm := imm
      funct3 := funct3
      funct7 := funct7
      debugMnemonic := cls.2 }

/-- The immediate selected directly by the primary opcode value instead of by
the class: U-type for 0x37 and 0x17, J-type for 0x6F, B-type for 0x63, S-type
for 0x23, I-type for 0x03, 0x67, 0x13 and 0x73, and 0 for anything else. The
reconstruction of each format is the one of `decodeImm`. -/
def immByField (opcode_field fetchInstr : Nat) : Nat :=
  if opcode_field = 0x37 ∨ opcode_field = 0x17 then decodeImm Opcode.LUI fetchInstr
  else if opcode_field = 0x6F then decodeImm Opcode.JAL fetchInstr
  else if opcode_field = 0x63 then decodeImm Opcode.BRANCH fetchInstr
  else if opcode_field = 0x23 then decodeImm Opcode.STORE fetchInstr
  else if opcode_field = 0x03 ∨ opcode_field = 0x67 ∨ opcode_field = 0x13 ∨
      opcode_field = 0x73 then decodeImm Opcode.LOAD fetchInstr
  else 0

/-- The variant of `decode` whose second switch dispatches on the raw opcode
bits `fetchInstr & 0x7F`. -/
def decodeByField (fetchInstr : Nat) : Instruction :=
  { decode fetchInstr with imm := immByField (u8 (fetchInstr &&& 0x7F)) fetchInstr }

/-- The standard J-type word for a jump offset `v` and a destination `rd`:
with `u` the 21-bit two's-complement pattern of `v`, bit 31 is `u[20]`, bits
[30:21] are `u[10:1]`, bit 20 is `u[11]`, bits [19:12] are `u[19:12]`, bits
[11:7] are `rd` and bits [6:0] are 0x6F. -/
def encodeJ (v : Int) (rd : Nat) : Nat :=
  let u := (v % 2 ^ 21).toNat
  (bits u 20 20 <<< 31) ||| (bits u 10 1 <<< 21) ||| (bits u 11 11 <<< 20)
    ||| (bits u 19 12 <<< 12) ||| (rd <<< 7) ||| 0x6F

/-- A `uint32_t` value read as a signed 32-bit two's-complement integer. -/
def toInt32 (x : Nat) : Int :=
  if x < 2 ^ 31 then (x : Int) else (x : Int) - 2 ^ 32

/-- The object `Instruction instr{}` of `decode` right after its declaration:
value-initialised, so every number is 0, the class is the first enumerator
and the label is empty. -/
def valueInit : Instruction :=
  { fetchInstr := 0, opcode := Opcode.LUI, rs1 := 0, rs2 := 0, rd := 0, imm := 0,
    funct3 := 0, funct7 := 0, debugMnemonic := "" }

/-- The first `switch` of `decode` as the two assignments each of its cases
makes to the local `instr`. -/
def classifyInto (instr : Instruction) (opcode_field : Nat) : Instruction :=
  if opcode_field = 0x37 then { instr with opcode := Opcode.LUI, debugMnemonic := "LUI" }
  else if opcode_field = 0x17 then
    { instr with opcode := Opcode.AUIPC, debugMnemonic := "AUIPC" }
  else if opcode_field = 0x6F then { instr with opcode := Opcode.JAL, debugMnemonic := "JAL" }
  else if opcode_field = 0x67 then
    { instr with opcode := Opcode.JALR, debugMnemonic := "JALR" }
  else if opcode_field = 0x63 then
    { instr with opcode := Opcode.BRANCH, debugMnemonic := "BRANCH" }
  else if opcode_field = 0x03 then
    { instr with opcode := Opcode.LOAD, debugMnemonic := "LOAD" }
  else if opcode_field = 0x23 then
    { instr with opcode := Opcode.STORE, debugMnemonic := "STORE" }
  else if opcode_field = 0x13 then
    { instr with opcode := Opcode.OP_IMM, debugMnemonic := "OP_IMM" }
  else if opcode_field = 0x33 then { instr with opcode := Opcode.OP, debugMnemonic := "OP" }
  else if opcode_field = 0x73 then
    { instr with opcode := Opcode.SYSTEM, debugMnemonic := "SYSTEM" }
  else { instr with opcode := Opcode.INVALID, debugMnemonic := "INVALID" }

/-- The second `switch` of `decode` as assignments to the local `instr`: it
reads back `instr.opcode`, stores `instr.imm`, and where the source tests or
extends `instr.imm` it reads that field back too. -/
def immInto (instr : Instruction) (fetchInstr : Nat) : Instruction :=
  match instr.opcode with
  | Opcode.LUI | Opcode.AUIPC =>
      { instr with imm := fetchInstr &&& 0xFFFFF000 }
  | Opcode.JAL =>
      let imm20 := (fetchInstr >>> 31) &&& 0x1
      let imm10_1 := (fetchInstr >>> 21) &&& 0x3FF
      let imm11 := (fetchInstr >>> 20) &&& 0x1
      let imm19_12 := (fetchInstr >>> 12) &&& 0xFF
      let instr := { instr with imm := (u32 (imm20 <<< 20) ||| u32 (imm19_12 <<< 12)
        ||| u32 (imm11 <<< 11) ||| u32 (imm10_1 <<< 1)) }
      if imm20 ≠ 0 then { instr with imm := instr.imm ||| 0xFFF00000 } else instr
  | Opcode.BRANCH =>
      let imm12 := (fetchInstr >>> 31) &&& 0x1
      let imm10_5 := (fetchInstr >>> 25) &&& 0x3F
      let imm4_1 := (fetchInstr >>> 8) &&& 0xF
      let imm11 := (fetchInstr >>> 7) &&& 0x1
      let instr := { instr with imm := (u32 (imm12 <<< 12) ||| u32 (imm11 <<< 11)
        ||| u32 (imm10_5 <<< 5) ||| u32 (imm4_1 <<< 1)) }
      if imm12 ≠ 0 then { instr with imm := instr.imm ||| 0xFFFFE000 } else instr
  | Opcode.STORE =>
      let imm11_5 := (fetchInstr >>> 25) &&& 0x7F
      let imm4_0 := (fetchInstr >>> 7) &&& 0x1F
      let instr := { instr with imm := u32 (imm11_5 <<< 5) ||| imm4_0 }
      if imm11_5 &&& 0x40 ≠ 0 then { instr with imm := instr.imm ||| 0xFFFFF000 } else instr
  | Opcode.LOAD | Opcode.JALR | Opcode.OP_IMM | Opcode.SYSTEM =>
      let instr := { instr with imm := (fetchInstr >>> 20) &&& 0xFFF }
      if instr.imm &&& 0x800 ≠ 0 then { instr with imm := instr.imm ||| 0xFFFFF000 }
      else instr
  | Opcode.OP | Opcode.INVALID =>
      { instr with imm := 0 }

/-- The body of `decode` as a sequence of assignments to the local `instr`,
started from an arbitrary content `init` of that object: what a call would
return if the object held `init` before the first assignment. The source
starts from `valueInit`. -/
def decodeFrom (init : Instruction) (fetchInstr : Nat) : Instruction :=
  let instr := init
  let instr := { instr with fetchInstr := fetchInstr }
  let opcode_field := u8 (fetchInstr &&& 0x7F)
  let instr := { instr with rd := u8 ((fetchInstr >>> 7) &&& 0x1F) }
  let instr := { instr with funct3 := u8 ((fetchInstr >>> 12) &&& 0x07) }
  let instr := { instr with rs1 := u8 ((fetchInstr >>> 15) &&& 0x1F) }
  let instr := { instr with rs2 := u8 ((fetchInstr >>> 20) &&& 0x1F) }
  let instr := { instr with funct7 := u8 ((fetchInstr >>> 25) &&& 0x7F) }
  let instr := classifyInto instr opcode_field
  immInto instr fetchInstr

/-! ## Bitwise operations as arithmetic -/

theorem or_eq_add (k : Nat) {x y : Nat} (hx : x % 2 ^ k = 0) (hy : y < 2 ^ k) :
    x ||| y = x + y := by
  have h := Nat.mul_add_lt_is_or hy (x / 2 ^ k)
  rw [Nat.mul_div_cancel' (Nat.dvd_of_mod_eq_zero hx)] at h
  exact h.symm

theorem testBit_high_mask (k i : Nat) :
    (2 ^ k * (2 ^ (32 - k) - 1)).testBit i = (decide (k ≤ i) && decide (i - k < 32 - k)) := by
  rw [Nat.testBit_mul_pow_two, Nat.testBit_two_pow_sub_one]

theorem testBit_of_lt_word {x : Nat} (hx : x < 2 ^ 32) {i : Nat} (hi : 32 ≤ i) :
    x.testBit i = false :=
  Nat.testBit_lt_two_pow (Nat.lt_of_lt_of_le hx (Nat.pow_le_pow_right (by decide) hi))

theorem or_high_mask (k : Nat) (hk : k ≤ 32) {x : Nat} (hx : x < 2 ^ 32) :
    x ||| 2 ^ k * (2 ^ (32 - k) - 1) = 2 ^ k * (2 ^ (32 - k) - 1) + x % 2 ^ k := by
  rw [Nat.mul_add_lt_is_or (Nat.mod_lt _ (Nat.two_pow_pos k))]
  apply Nat.eq_of_testBit_eq
  intro i
  rw [Nat.testBit_or, Nat.testBit_or, testBit_high_mask, Nat.testBit_mod_two_pow]
  by_cases h1 : i < k
  · have h2 : ¬ k ≤ i := by omega
    simp [h1, h2]
  · by_cases h3 : i < 32
    · have h2 : k ≤ i := by omega
      have h4 : i - k < 32 - k := by omega
      simp [h2, h4]
    · have h5 := testBit_of_lt_word hx (Nat.le_of_not_lt h3)
      simp [h1, h5]

theorem and_high_mask (k : Nat) (hk : k ≤ 32) {x : Nat} (hx : x < 2 ^ 32) :
    x &&& 2 ^ k * (2 ^ (32 - k) - 1) = 2 ^ k * (x / 2 ^ k) := by
  apply Nat.eq_of_testBit_eq
  intro i
  rw [Nat.testBit_and, testBit_high_mask, Nat.testBit_mul_pow_two,
    ← Nat.shiftRight_eq_div_pow, Nat.testBit_shiftRight]
  by_cases h1 : i < k
  · have h2 : ¬ k ≤ i := by omega
    simp [h2]
  · by_cases h3 : i < 32
    · have h2 : k ≤ i := by omega
      have h4 : i - k < 32 - k := by omega
      have h6 : k + (i - k) = i := by omega
      simp [h2, h4, h6]
    · have h2 : k ≤ i := by omega
      have h5 := testBit_of_lt_word hx (Nat.le_of_not_lt h3)
      have h6 : k + (i - k) = i := by omega
      simp [h2, h5, h6]

theorem and_two_pow_ne_zero (x k : Nat) : x &&& 2 ^ k ≠ 0 ↔ x / 2 ^ k % 2 = 1 := by
  have hb : x.testBit k = decide (x / 2 ^ k % 2 = 1) := Nat.testBit_to_div_mod
  constructor
  · intro h
    by_contra hc
    apply h
    apply Nat.eq_of_testBit_eq
    intro i
    rw [Nat.testBit_and, Nat.testBit_two_pow, Nat.zero_testBit]
    by_cases hki : k = i
    · subst hki
      simp [hb, hc]
    · simp [hki]
  · intro h hz
    have h1 : (x &&& 2 ^ k).testBit k = true := by
      rw [Nat.testBit_and, Nat.testBit_two_pow, hb]
      simp [h]
    rw [hz, Nat.zero_testBit] at h1
    exact Bool.noConfusion h1

theorem and_0x1 (x : Nat) : x &&& 0x1 = x % 2 := Nat.and_pow_two_sub_one_eq_mod x 1
theorem and_0x07 (x : Nat) : x &&& 0x07 = x % 8 := Nat.and_pow_two_sub_one_eq_mod x 3
theorem and_0xF (x : Nat) : x &&& 0xF = x % 16 := Nat.and_pow_two_sub_one_eq_mod x 4
theorem and_0x1F (x : Nat) : x &&& 0x1F = x % 32 := Nat.and_pow_two_sub_one_eq_mod x 5
theorem and_0x3F (x : Nat) : x &&& 0x3F = x % 64 := Nat.and_pow_two_sub_one_eq_mod x 6
theorem and_0x7F (x : Nat) : x &&& 0x7F = x % 128 := Nat.and_pow_two_sub_one_eq_mod x 7
theorem and_0xFF (x : Nat) : x &&& 0xFF = x % 256 := Nat.and_pow_two_sub_one_eq_mod x 8
theorem and_0x3FF (x : Nat) : x &&& 0x3FF = x % 1024 := Nat.and_pow_two_sub_one_eq_mod x 10
theorem and_0xFFF (x : Nat) : x &&& 0xFFF = x % 4096 := Nat.and_pow_two_sub_one_eq_mod x 12

theorem and_0x40_ne_zero (x : Nat) : x &&& 0x40 ≠ 0 ↔ x / 64 % 2 = 1 :=
  and_two_pow_ne_zero x 6

theorem and_0x800_ne_zero (x : Nat) : x &&& 0x800 ≠ 0 ↔ x / 2048 % 2 = 1 :=
  and_two_pow_ne_zero x 11

theorem and_0xFFFFF000 {x : Nat} (hx : x < 2 ^ 32) : x &&& 0xFFFFF000 = 4096 * (x / 4096) :=
  and_high_mask 12 (by decide) hx

theorem or_0xFFFFF000 {x : Nat} (hx : x < 2 ^ 32) :
    x ||| 0xFFFFF000 = 0xFFFFF000 + x % 4096 :=
  or_high_mask 12 (by decide) hx

theorem or_0xFFFFE000 {x : Nat} (hx : x < 2 ^ 32) :
    x ||| 0xFFFFE000 = 0xFFFFE000 + x % 8192 :=
  or_high_mask 13 (by decide) hx

theorem or_0xFFF00000 {x : Nat} (hx : x < 2 ^ 32) :
    x ||| 0xFFF00000 = 0xFFF00000 + x % 1048576 :=
  or_high_mask 20 (by decide) hx

theorem decodeImm_JAL (raw : Nat) :
    decodeImm Opcode.JAL raw =
      raw / 2 ^ 31 % 2 * 0xFFF00000 + raw / 2 ^ 12 % 256 * 2 ^ 12 + raw / 2 ^ 20 % 2 * 2 ^ 11
        + raw / 2 ^ 21 % 1024 * 2 := by
  simp only [decodeImm, u32, and_0x1, and_0x3FF, and_0xFF, Nat.shiftRight_eq_div_pow,
    Nat.shiftLeft_eq]
  have ha : raw / 2 ^ 31 % 2 < 2 := Nat.mod_lt _ (by decide)
  have hb : raw / 2 ^ 12 % 256 < 256 := Nat.mod_lt _ (by decide)
  have hc : raw / 2 ^ 20 % 2 < 2 := Nat.mod_lt _ (by decide)
  have hd : raw / 2 ^ 21 % 1024 < 1024 := Nat.mod_lt _ (by decide)
  generalize raw / 2 ^ 31 % 2 = a at ha ⊢
  generalize raw / 2 ^ 12 % 256 = b at hb ⊢
  generalize raw / 2 ^ 20 % 2 = c at hc ⊢
  generalize raw / 2 ^ 21 % 1024 = d at hd ⊢
  simp (disch := omega) only [or_eq_add 20, or_eq_add 12, or_eq_add 11]
  split
  · rw [or_0xFFF00000 (by omega)]
    omega
  · omega

theorem decodeImm_BRANCH (raw : Nat) :
    decodeImm Opcode.BRANCH raw =
      raw / 2 ^ 31 % 2 * 0xFFFFF000 + raw / 2 ^ 7 % 2 * 2 ^ 11 + raw / 2 ^ 25 % 64 * 2 ^ 5
        + raw / 2 ^ 8 % 16 * 2 := by
  simp only [decodeImm, u32, and_0x1, and_0x3F, and_0xF, Nat.shiftRight_eq_div_pow,
    Nat.shiftLeft_eq]
  have ha : raw / 2 ^ 31 % 2 < 2 := Nat.mod_lt _ (by decide)
  have hb : raw / 2 ^ 7 % 2 < 2 := Nat.mod_lt _ (by decide)
  have hc : raw / 2 ^ 25 % 64 < 64 := Nat.mod_lt _ (by decide)
  have hd : raw / 2 ^ 8 % 16 < 16 := Nat.mod_lt _ (by decide)
  generalize raw / 2 ^ 31 % 2 = a at ha ⊢
  generalize raw / 2 ^ 7 % 2 = b at hb ⊢
  generalize raw / 2 ^ 25 % 64 = c at hc ⊢
  generalize raw / 2 ^ 8 % 16 = d at hd ⊢
  simp (disch := omega) only [or_eq_add 12, or_eq_add 11, or_eq_add 5]
  split
  · rw [or_0xFFFFE000 (by omega)]
    omega
  · omega

theorem decodeImm_STORE (raw : Nat) :
    decodeImm Opcode.STORE raw =
      raw / 2 ^ 25 % 128 / 64 * 0xFFFFF000 + raw / 2 ^ 25 % 128 * 2 ^ 5 + raw / 2 ^ 7 % 32 := by
  simp only [decodeImm, u32, and_0x7F, and_0x1F, and_0x40_ne_zero, Nat.shiftRight_eq_div_pow,
    Nat.shiftLeft_eq]
  have ha : raw / 2 ^ 25 % 128 < 128 := Nat.mod_lt _ (by decide)
  have hb : raw / 2 ^ 7 % 32 < 32 := Nat.mod_lt _ (by decide)
  generalize raw / 2 ^ 25 % 128 = a at ha ⊢
  generalize raw / 2 ^ 7 % 32 = b at hb ⊢
  simp (disch := omega) only [or_eq_add 5]
  split
  · rw [or_0xFFFFF000 (by omega)]
    omega
  · omega

theorem decodeImm_IType (raw : Nat) :
    (if raw / 2 ^ 20 &&& 0xFFF &&& 0x800 ≠ 0 then raw / 2 ^ 20 &&& 0xFFF ||| 0xFFFFF000
      else raw / 2 ^ 20 &&& 0xFFF) =
      raw / 2 ^ 20 % 4096 / 2048 * 0xFFFFF000 + raw / 2 ^ 20 % 4096 := by
  simp only [and_0xFFF, and_0x800_ne_zero]
  have ha : raw / 2 ^ 20 % 4096 < 4096 := Nat.mod_lt _ (by decide)
  generalize raw / 2 ^ 20 % 4096 = a at ha ⊢
  split
  · rw [or_0xFFFFF000 (by omega)]
    omega
  · omega

theorem decodeImm_LOAD (raw : Nat) :
    decodeImm Opcode.LOAD raw =
      raw / 2 ^ 20 % 4096 / 2048 * 0xFFFFF000 + raw / 2 ^ 20 % 4096 := by
  simp only [decodeImm, Nat.shiftRight_eq_div_pow]
  exact decodeImm_IType raw

theorem decodeImm_JALR (raw : Nat) :
    decodeImm Opcode.JALR raw =
      raw / 2 ^ 20 % 4096 / 2048 * 0xFFFFF000 + raw / 2 ^ 20 % 4096 := by
  simp only [decodeImm, Nat.shiftRight_eq_div_pow]
  exact decodeImm_IType raw

theorem decodeImm_OP_IMM (raw : Nat) :
    decodeImm Opcode.OP_IMM raw =
      raw / 2 ^ 20 % 4096 / 2048 * 0xFFFFF000 + raw / 2 ^ 20 % 4096 := by
  simp only [decodeImm, Nat.shiftRight_eq_div_pow]
  exact decodeImm_IType raw

theorem decodeImm_SYSTEM (raw : Nat) :
    decodeImm Opcode.SYSTEM raw =
      raw / 2 ^ 20 % 4096 / 2048 * 0xFFFFF000 + raw / 2 ^ 20 % 4096 := by
  simp only [decodeImm, Nat.shiftRight_eq_div_pow]
  exact decodeImm_IType raw

theorem decodeImm_LUI {raw : Nat} (h : raw < 2 ^ 32) :
    decodeImm Opcode.LUI raw = 4096 * (raw / 4096) := by
  simp only [decodeImm]
  exact and_0xFFFFF000 h

theorem decodeImm_AUIPC {raw : Nat} (h : raw < 2 ^ 32) :
    decodeImm Opcode.AUIPC raw = 4096 * (raw / 4096) := by
  simp only [decodeImm]
  exact and_0xFFFFF000 h

/-- The record `decode` returns, with every shift and mask written as a
quotient and a remainder. -/
theorem decode_eq (raw : Nat) :
    decode raw =
      { fetchInstr := raw
        opcode := (classify (raw % 128)).1
        rs1 := raw / 2 ^ 15 % 32
        rs2 := raw / 2 ^ 20 % 32
        rd := raw / 2 ^ 7 % 32
        imm := decodeImm (classify (raw % 128)).1 raw
        funct3 := raw / 2 ^ 12 % 8
        funct7 := raw / 2 ^ 25 % 128
        debugMnemonic := (classify (raw % 128)).2 } := by
  have h1 : raw % 128 % 2 ^ 8 = raw % 128 := by omega
  have h2 : raw / 2 ^ 7 % 32 % 2 ^ 8 = raw / 2 ^ 7 % 32 := by omega
  have h3 : raw / 2 ^ 12 % 8 % 2 ^ 8 = raw / 2 ^ 12 % 8 := by omega
  have h4 : raw / 2 ^ 15 % 32 % 2 ^ 8 = raw / 2 ^ 15 % 32 := by omega
  have h5 : raw / 2 ^ 20 % 32 % 2 ^ 8 = raw / 2 ^ 20 % 32 := by omega
  have h6 : raw / 2 ^ 25 % 128 % 2 ^ 8 = raw / 2 ^ 25 % 128 := by omega
  simp only [decode, u8, and_0x7F, and_0x1F, and_0x07, Nat.shiftRight_eq_div_pow,
    h1, h2, h3, h4, h5, h6]

theorem testBit_bits (x hi lo i : Nat) :
    (bits x hi lo).testBit i = (decide (i < hi + 1 - lo) && x.testBit (lo + i)) := by
  rw [bits, Nat.testBit_mod_two_pow, ← Nat.shiftRight_eq_div_pow, Nat.testBit_shiftRight]

theorem decode_opcode (raw : Nat) : (decode raw).opcode = (classify (raw &&& 0x7F)).1 := by
  rw [decode_eq, and_0x7F]

/-! ## Claims -/

/-- C1: the class `decode` stores is fixed by the primary opcode field
`raw & 0x7F` alone, through the table 0x37 LUI, 0x17 AUIPC, 0x6F JAL,
0x67 JALR, 0x63 BRANCH, 0x03 LOAD, 0x23 STORE, 0x13 OP_IMM, 0x33 OP,
0x73 SYSTEM; each of the other 118 seven-bit values gives INVALID. -/
theorem C1_opcode_table (raw : Nat) (_hraw : raw < 2 ^ 32) :
    (raw &&& 0x7F = 0x37 → (decode raw).opcode = Opcode.LUI) ∧
    (raw &&& 0x7F = 0x17 → (decode raw).opcode = Opcode.AUIPC) ∧
    (raw &&& 0x7F = 0x6F → (decode raw).opcode = Opcode.JAL) ∧
    (raw &&& 0x7F = 0x67 → (decode raw).opcode = Opcode.JALR) ∧
    (raw &&& 0x7F = 0x63 → (decode raw).opcode = Opcode.BRANCH) ∧
    (raw &&& 0x7F = 0x03 → (decode raw).opcode = Opcode.LOAD) ∧
    (raw &&& 0x7F = 0x23 → (decode raw).opcode = Opcode.STORE) ∧
    (raw &&& 0x7F = 0x13 → (decode raw).opcode = Opcode.OP_IMM) ∧
    (raw &&& 0x7F = 0x33 → (decode raw).opcode = Opcode.OP) ∧
    (raw &&& 0x7F = 0x73 → (decode raw).opcode = Opcode.SYSTEM) ∧
    (raw &&& 0x7F ∉ knownOpcodes → (decode raw).opcode = Opcode.INVALID) ∧
    (∀ other, other < 2 ^ 32 → other &&& 0x7F = raw &&& 0x7F →
      (decode other).opcode = (decode raw).opcode) ∧
    raw &&& 0x7F < 128 ∧
    ((List.range 128).filter (fun p => decide (p ∉ knownOpcodes))).length = 118 := by
  refine ⟨?_, ?_, ?_, ?_, ?_, ?_, ?_, ?_, ?_, ?_, ?_, ?_, ?_, ?_⟩
  · intro h; rw [decode_opcode, h]; rfl
  · intro h; rw [decode_opcode, h]; rfl
  · intro h; rw [decode_opcode, h]; rfl
  · intro h; rw [decode_opcode, h]; rfl
  · intro h; rw [decode_opcode, h]; rfl
  · intro h; rw [decode_opcode, h]; rfl
  · intro h; rw [decode_opcode, h]; rfl
  · intro h; rw [decode_opcode, h]; rfl
  · intro h; rw [decode_opcode, h]; rfl
  · intro h; rw [decode_opcode, h]; rfl
  · intro h
    rw [decode_opcode]
    simp only [knownOpcodes, List.mem_cons, List.mem_singleton, List.not_mem_nil, or_false,
      not_or] at h
    obtain ⟨h1, h2, h3, h4, h5, h6, h7, h8, h9, h10⟩ := h
    simp only [classify, h1, h2, h3, h4, h5, h6, h7, h8, h9, h10, if_false]
  · intro other _ h
    rw [decode_opcode, decode_opcode, h]
  · rw [and_0x7F]
    exact Nat.mod_lt _ (by decide)
  · rfl

theorem C1_opcode_table_witness :
    (decode 0x00C58533).opcode = Opcode.OP ∧ (decode 0x00000000).opcode = Opcode.INVALID :=
  ⟨(C1_opcode_table 0x00C58533 (by decide)).2.2.2.2.2.2.2.2.1 (by decide),
   (C1_opcode_table 0x00000000 (by decide)).2.2.2.2.2.2.2.2.2.2.1 (by decide)⟩

/-- C2: whatever the class, INVALID included, `decode` fills `rd`, `funct3`,
`rs1`, `rs2` and `funct7` with the bits [11:7], [14:12], [19:15], [24:20]
and [31:25] of the word, so the register indices are below 32, `funct3`
below 8 and `funct7` below 128. -/
theorem C2_fixed_fields (raw : Nat) (_hraw : raw < 2 ^ 32) :
    (decode raw).rd = bits raw 11 7 ∧
    (decode raw).funct3 = bits raw 14 12 ∧
    (decode raw).rs1 = bits raw 19 15 ∧
    (decode raw).rs2 = bits raw 24 20 ∧
    (decode raw).funct7 = bits raw 31 25 ∧
    (decode raw).rd < 32 ∧ (decode raw).rs1 < 32 ∧ (decode raw).rs2 < 32 ∧
    (decode raw).funct3 < 8 ∧ (decode raw).funct7 < 128 := by
  rw [decode_eq]
  simp only [bits]
  refine ⟨rfl, rfl, rfl, rfl, rfl, ?_, ?_, ?_, ?_, ?_⟩ <;> exact Nat.mod_lt _ (by decide)

theorem C2_fixed_fields_witness :
    (decode 0x00C58533).rd = bits 0x00C58533 11 7 ∧
    (decode 0x00C58533).funct3 = bits 0x00C58533 14 12 ∧
    (decode 0x00C58533).rs1 = bits 0x00C58533 19 15 ∧
    (decode 0x00C58533).rs2 = bits 0x00C58533 24 20 ∧
    (decode 0x00C58533).funct7 = bits 0x00C58533 31 25 ∧
    (decode 0x00C58533).rd < 32 ∧ (decode 0x00C58533).rs1 < 32 ∧
    (decode 0x00C58533).rs2 < 32 ∧
    (decode 0x00C58533).funct3 < 8 ∧ (decode 0x00C58533).funct7 < 128 :=
  C2_fixed_fields 0x00C58533 (by decide)

theorem testBit_congr_div_mod {x y i j : Nat} (h : x / 2 ^ i % 2 = y / 2 ^ j % 2) :
    x.testBit i = y.testBit j := by
  rw [Nat.testBit_to_div_mod, Nat.testBit_to_div_mod, h]

theorem decode_imm_of_JAL {raw : Nat} (hop : raw &&& 0x7F = 0x6F) :
    (decode raw).imm =
      raw / 2 ^ 31 % 2 * 0xFFF00000 + raw / 2 ^ 12 % 256 * 2 ^ 12 + raw / 2 ^ 20 % 2 * 2 ^ 11
        + raw / 2 ^ 21 % 1024 * 2 := by
  rw [and_0x7F] at hop
  rw [decode_eq, ← decodeImm_JAL, hop]
  rfl

theorem jal_layout {a b c d imm : Nat} (ha : a < 2) (hb : b < 256) (hc : c < 2) (hd : d < 1024)
    (himm : imm = a * 0xFFF00000 + b * 2 ^ 12 + c * 2 ^ 11 + d * 2) :
    imm < 2 ^ 32 ∧ imm % 2 = 0 ∧ imm / 2 ^ 1 % 1024 = d ∧ imm / 2 ^ 11 % 2 = c ∧
    imm / 2 ^ 12 % 256 = b ∧ (∀ i, 20 ≤ i → i ≤ 31 → imm / 2 ^ i % 2 = a) ∧
    imm % 2 ^ 21 = a * 2 ^ 20 + b * 2 ^ 12 + c * 2 ^ 11 + d * 2 := by
  subst himm
  have ha2 : a = 0 ∨ a = 1 := by omega
  have hc2 : c = 0 ∨ c = 1 := by omega
  refine ⟨?_, ?_, ?_, ?_, ?_, ?_, ?_⟩
  · omega
  · omega
  · rcases ha2 with rfl | rfl <;> rcases hc2 with rfl | rfl <;> omega
  · rcases ha2 with rfl | rfl <;> rcases hc2 with rfl | rfl <;> omega
  · rcases ha2 with rfl | rfl <;> rcases hc2 with rfl | rfl <;> omega
  · intro i h1 h2
    rcases ha2 with rfl | rfl <;> rcases hc2 with rfl | rfl <;> interval_cases i <;> omega
  · rcases ha2 with rfl | rfl <;> rcases hc2 with rfl | rfl <;> omega

theorem branch_layout {a b c d imm : Nat} (ha : a < 2) (hb : b < 2) (hc : c < 64) (hd : d < 16)
    (himm : imm = a * 0xFFFFF000 + b * 2 ^ 11 + c * 2 ^ 5 + d * 2) :
    imm < 2 ^ 32 ∧ imm % 2 = 0 ∧ imm / 2 ^ 1 % 16 = d ∧ imm / 2 ^ 5 % 64 = c ∧
    imm / 2 ^ 11 % 2 = b ∧ (∀ i, 12 ≤ i → i ≤ 31 → imm / 2 ^ i % 2 = a) ∧
    imm % 2 ^ 13 = a * 2 ^ 12 + b * 2 ^ 11 + c * 2 ^ 5 + d * 2 := by
  subst himm
  have ha2 : a = 0 ∨ a = 1 := by omega
  have hb2 : b = 0 ∨ b = 1 := by omega
  refine ⟨?_, ?_, ?_, ?_, ?_, ?_, ?_⟩
  · omega
  · omega
  · rcases ha2 with rfl | rfl <;> rcases hb2 with rfl | rfl <;> omega
  · rcases ha2 with rfl | rfl <;> rcases hb2 with rfl | rfl <;> omega
  · rcases ha2 with rfl | rfl <;> rcases hb2 with rfl | rfl <;> omega
  · intro i h1 h2
    rcases ha2 with rfl | rfl <;> rcases hb2 with rfl | rfl <;> interval_cases i <;> omega
  · rcases ha2 with rfl | rfl <;> rcases hb2 with rfl | rfl <;> omega

theorem sext12_layout {m imm : Nat} (hm : m < 4096)
    (himm : imm = m / 2048 * 0xFFFFF000 + m) :
    imm < 2 ^ 32 ∧ imm % 2 ^ 12 = m ∧ (∀ i, 12 ≤ i → i ≤ 31 → imm / 2 ^ i % 2 = m / 2048) := by
  subst himm
  have hs : m / 2048 = 0 ∨ m / 2048 = 1 := by omega
  refine ⟨?_, ?_, ?_⟩
  · omega
  · rcases hs with hs | hs <;> rw [hs] <;> omega
  · intro i h1 h2
    rcases hs with hs | hs <;> rw [hs] <;> interval_cases i <;> omega

theorem sign_of_funct7 (raw : Nat) : raw / 2 ^ 25 % 128 / 64 = raw / 2 ^ 31 % 2 := by
  omega

theorem store_fields {f e : Nat} (hf : f < 128) (he : e < 32) :
    f * 2 ^ 5 + e < 4096 ∧ (f * 2 ^ 5 + e) / 2048 = f / 64 := by
  constructor <;> omega

theorem decode_imm_of_BRANCH {raw : Nat} (hop : raw &&& 0x7F = 0x63) :
    (decode raw).imm =
      raw / 2 ^ 31 % 2 * 0xFFFFF000 + raw / 2 ^ 7 % 2 * 2 ^ 11 + raw / 2 ^ 25 % 64 * 2 ^ 5
        + raw / 2 ^ 8 % 16 * 2 := by
  rw [and_0x7F] at hop
  rw [decode_eq, ← decodeImm_BRANCH, hop]
  rfl

theorem decode_imm_of_STORE {raw : Nat} (hop : raw &&& 0x7F = 0x23) :
    (decode raw).imm =
      raw / 2 ^ 25 % 128 / 64 * 0xFFFFF000 + raw / 2 ^ 25 % 128 * 2 ^ 5 + raw / 2 ^ 7 % 32 := by
  rw [and_0x7F] at hop
  rw [decode_eq, ← decodeImm_STORE, hop]
  rfl

theorem decode_imm_of_IType {raw : Nat}
    (hop : raw &&& 0x7F = 0x03 ∨ raw &&& 0x7F = 0x67 ∨ raw &&& 0x7F = 0x13 ∨
      raw &&& 0x7F = 0x73) :
    (decode raw).imm = raw / 2 ^ 20 % 4096 / 2048 * 0xFFFFF000 + raw / 2 ^ 20 % 4096 := by
  rw [and_0x7F] at hop
  rcases hop with hop | hop | hop | hop
  · rw [decode_eq, ← decodeImm_LOAD, hop]; rfl
  · rw [decode_eq, ← decodeImm_JALR, hop]; rfl
  · rw [decode_eq, ← decodeImm_OP_IMM, hop]; rfl
  · rw [decode_eq, ← decodeImm_SYSTEM, hop]; rfl

/-- C3: for a word whose primary opcode field is 0x6F, `imm` is the J-type
immediate: bit 0 is 0, bits [10:1] are the word's bits [30:21], bit 11 is
its bit 20, bits [19:12] are its bits [19:12], and each of the bits 20 to 31
is its bit 31, which makes `imm` its own low 21 bits sign-extended to 32
bits; with bit 31 set and the other immediate bits zero, `imm` is
0xFFF00000. -/
theorem C3_jal_immediate (raw : Nat) (_hraw : raw < 2 ^ 32) (hop : raw &&& 0x7F = 0x6F) :
    (decode raw).imm < 2 ^ 32 ∧
    (decode raw).imm.testBit 0 = false ∧
    bits (decode raw).imm 10 1 = bits raw 30 21 ∧
    (decode raw).imm.testBit 11 = raw.testBit 20 ∧
    bits (decode raw).imm 19 12 = bits raw 19 12 ∧
    (∀ i, 20 ≤ i → i ≤ 31 → (decode raw).imm.testBit i = raw.testBit 31) ∧
    (decode raw).imm =
      (decode raw).imm % 2 ^ 21 + (if raw.testBit 31 = true then 2 ^ 32 - 2 ^ 21 else 0) ∧
    (raw.testBit 31 = true → bits raw 30 12 = 0 → (decode raw).imm = 0xFFF00000) := by
  have himm := decode_imm_of_JAL hop
  have hs : raw.testBit 31 = decide (raw / 2 ^ 31 % 2 = 1) := Nat.testBit_to_div_mod
  obtain ⟨h1, h2, h3, h4, h5, h6, h7⟩ :=
    jal_layout (Nat.mod_lt _ (by decide)) (Nat.mod_lt _ (by decide))
      (Nat.mod_lt _ (by decide)) (Nat.mod_lt _ (by decide)) himm
  refine ⟨h1, ?_, h3, testBit_congr_div_mod h4, h5, ?_, ?_, ?_⟩
  · rw [Nat.testBit_to_div_mod, decide_eq_false_iff_not]
    omega
  · intro i hi1 hi2
    exact testBit_congr_div_mod (h6 i hi1 hi2)
  · rw [hs, h7]
    have ha : raw / 2 ^ 31 % 2 = 0 ∨ raw / 2 ^ 31 % 2 = 1 := by omega
    rcases ha with ha | ha
    · rw [himm, ha]; simp
    · rw [himm, ha]; simp; omega
  · intro hb hz
    rw [hs, decide_eq_true_eq] at hb
    have hz' : raw / 2 ^ 12 % 2 ^ 19 = 0 := hz
    have e1 : raw / 2 ^ 12 % 256 = 0 := by omega
    have e2 : raw / 2 ^ 20 % 2 = 0 := by omega
    have e3 : raw / 2 ^ 21 % 1024 = 0 := by omega
    rw [himm, hb, e1, e2, e3]
    norm_num

theorem C3_jal_immediate_witness : (decode 0x800000EF).imm = 0xFFF00000 :=
  (C3_jal_immediate 0x800000EF (by decide) (by decide)).2.2.2.2.2.2.2 (by decide) (by decide)

/-- C4: for a word whose primary opcode field is 0x63, `imm` is the B-type
immediate: bit 0 is 0, bits [4:1] are the word's bits [11:8], bits [10:5]
are its bits [30:25], bit 11 is its bit 7, and each of the bits 12 to 31 is
its bit 31, which makes `imm` its own low 13 bits sign-extended to 32 bits;
with bit 31 set and bits [30:25] and [11:7] zero, `imm` is 0xFFFFF000
whatever rs1, rs2 and funct3 are. -/
theorem C4_branch_immediate (raw : Nat) (_hraw : raw < 2 ^ 32) (hop : raw &&& 0x7F = 0x63) :
    (decode raw).imm < 2 ^ 32 ∧
    (decode raw).imm.testBit 0 = false ∧
    bits (decode raw).imm 4 1 = bits raw 11 8 ∧
    bits (decode raw).imm 10 5 = bits raw 30 25 ∧
    (decode raw).imm.testBit 11 = raw.testBit 7 ∧
    (∀ i, 12 ≤ i → i ≤ 31 → (decode raw).imm.testBit i = raw.testBit 31) ∧
    (decode raw).imm =
      (decode raw).imm % 2 ^ 13 + (if raw.testBit 31 = true then 2 ^ 32 - 2 ^ 13 else 0) ∧
    (raw.testBit 31 = true → bits raw 30 25 = 0 → bits raw 11 7 = 0 →
      (decode raw).imm = 0xFFFFF000) := by
  have himm := decode_imm_of_BRANCH hop
  have hs : raw.testBit 31 = decide (raw / 2 ^ 31 % 2 = 1) := Nat.testBit_to_div_mod
  obtain ⟨h1, h2, h3, h4, h5, h6, h7⟩ :=
    branch_layout (Nat.mod_lt _ (by decide)) (Nat.mod_lt _ (by decide))
      (Nat.mod_lt _ (by decide)) (Nat.mod_lt _ (by decide)) himm
  refine ⟨h1, ?_, h3, h4, testBit_congr_div_mod h5, ?_, ?_, ?_⟩
  · rw [Nat.testBit_to_div_mod, decide_eq_false_iff_not]
    omega
  · intro i hi1 hi2
    exact testBit_congr_div_mod (h6 i hi1 hi2)
  · rw [hs, h7]
    have ha : raw / 2 ^ 31 % 2 = 0 ∨ raw / 2 ^ 31 % 2 = 1 := by omega
    rcases ha with ha | ha
    · rw [himm, ha]; simp
    · rw [himm, ha]; simp; omega
  · intro hb hz1 hz2
    rw [hs, decide_eq_true_eq] at hb
    have hz1' : raw / 2 ^ 25 % 2 ^ 6 = 0 := hz1
    have hz2' : raw / 2 ^ 7 % 2 ^ 5 = 0 := hz2
    have e1 : raw / 2 ^ 7 % 2 = 0 := by omega
    have e2 : raw / 2 ^ 25 % 64 = 0 := by omega
    have e3 : raw / 2 ^ 8 % 16 = 0 := by omega
    rw [himm, hb, e1, e2, e3]
    norm_num

theorem C4_branch_immediate_witness : (decode 0x80A4D063).imm = 0xFFFFF000 :=
  (C4_branch_immediate 0x80A4D063 (by decide) (by decide)).2.2.2.2.2.2.2
    (by decide) (by decide) (by decide)

/-- C5: for a word whose primary opcode field is 0x23, `imm` is the S-type
immediate: bits [4:0] are the word's bits [11:7], bits [11:5] are its bits
[31:25], and each of the bits 12 to 31 is its bit 31 (bit 6 of the upper
immediate field), which makes `imm` its own low 12 bits sign-extended to 32
bits. -/
theorem C5_store_immediate (raw : Nat) (_hraw : raw < 2 ^ 32) (hop : raw &&& 0x7F = 0x23) :
    (decode raw).imm < 2 ^ 32 ∧
    bits (decode raw).imm 4 0 = bits raw 11 7 ∧
    bits (decode raw).imm 11 5 = bits raw 31 25 ∧
    (∀ i, 12 ≤ i → i ≤ 31 → (decode raw).imm.testBit i = raw.testBit 31) ∧
    raw.testBit 31 = (bits raw 31 25).testBit 6 ∧
    (decode raw).imm =
      (decode raw).imm % 2 ^ 12 + (if raw.testBit 31 = true then 2 ^ 32 - 2 ^ 12 else 0) := by
  have himm := decode_imm_of_STORE hop
  have hs : raw.testBit 31 = decide (raw / 2 ^ 31 % 2 = 1) := Nat.testBit_to_div_mod
  have hsign : raw / 2 ^ 25 % 128 / 64 = raw / 2 ^ 31 % 2 := sign_of_funct7 raw
  have hm : raw / 2 ^ 25 % 128 * 2 ^ 5 + raw / 2 ^ 7 % 32 < 4096 :=
    (store_fields (Nat.mod_lt _ (by decide)) (Nat.mod_lt _ (by decide))).1
  have hq : (raw / 2 ^ 25 % 128 * 2 ^ 5 + raw / 2 ^ 7 % 32) / 2048 = raw / 2 ^ 25 % 128 / 64 :=
    (store_fields (Nat.mod_lt _ (by decide)) (Nat.mod_lt _ (by decide))).2
  have himm2 : (decode raw).imm =
      (raw / 2 ^ 25 % 128 * 2 ^ 5 + raw / 2 ^ 7 % 32) / 2048 * 0xFFFFF000
        + (raw / 2 ^ 25 % 128 * 2 ^ 5 + raw / 2 ^ 7 % 32) := by
    rw [hq, himm, Nat.add_assoc]
  obtain ⟨h1, h2, h3⟩ := sext12_layout hm himm2
  refine ⟨h1, ?_, ?_, ?_, ?_, ?_⟩
  · show (decode raw).imm / 2 ^ 0 % 32 = raw / 2 ^ 7 % 32
    omega
  · show (decode raw).imm / 2 ^ 5 % 128 = raw / 2 ^ 25 % 128
    omega
  · intro i hi1 hi2
    apply testBit_congr_div_mod
    rw [h3 i hi1 hi2, hq, hsign]
  · apply testBit_congr_div_mod
    show raw / 2 ^ 31 % 2 = raw / 2 ^ 25 % 128 / 2 ^ 6 % 2
    omega
  · rw [hs, h2]
    have ha : raw / 2 ^ 31 % 2 = 0 ∨ raw / 2 ^ 31 % 2 = 1 := by omega
    rcases ha with ha | ha
    · rw [himm, hsign, ha]; simp
    · rw [himm, hsign, ha]; simp; omega

theorem C5_store_immediate_witness :
    (decode 0xFEA42E23).imm < 2 ^ 32 ∧
    bits (decode 0xFEA42E23).imm 4 0 = bits 0xFEA42E23 11 7 ∧
    bits (decode 0xFEA42E23).imm 11 5 = bits 0xFEA42E23 31 25 ∧
    (∀ i, 12 ≤ i → i ≤ 31 →
      (decode 0xFEA42E23).imm.testBit i = Nat.testBit 0xFEA42E23 31) ∧
    Nat.testBit 0xFEA42E23 31 = (bits 0xFEA42E23 31 25).testBit 6 ∧
    (decode 0xFEA42E23).imm =
      (decode 0xFEA42E23).imm % 2 ^ 12 +
        (if Nat.testBit 0xFEA42E23 31 = true then 2 ^ 32 - 2 ^ 12 else 0) :=
  C5_store_immediate 0xFEA42E23 (by decide) (by decide)

/-- C6: for a word whose primary opcode field is 0x03, 0x67, 0x13 or 0x73,
`imm` is the I-type immediate: bits [11:0] are the word's bits [31:20] and
each of the bits 12 to 31 is its bit 31, which makes `imm` its own low 12
bits sign-extended to 32 bits; a LOAD word with bits [31:20] equal to 0x800
gives 0xFFFFF800, whose bits 11 to 31 are all set. -/
theorem C6_itype_immediate (raw : Nat) (_hraw : raw < 2 ^ 32)
    (hop : raw &&& 0x7F = 0x03 ∨ raw &&& 0x7F = 0x67 ∨ raw &&& 0x7F = 0x13 ∨
      raw &&& 0x7F = 0x73) :
    (decode raw).imm < 2 ^ 32 ∧
    bits (decode raw).imm 11 0 = bits raw 31 20 ∧
    (∀ i, 12 ≤ i → i ≤ 31 → (decode raw).imm.testBit i = raw.testBit 31) ∧
    (decode raw).imm =
      (decode raw).imm % 2 ^ 12 + (if raw.testBit 31 = true then 2 ^ 32 - 2 ^ 12 else 0) ∧
    (raw &&& 0x7F = 0x03 → bits raw 31 20 = 0x800 →
      (decode raw).imm = 0xFFFFF800 ∧ 2 ^ 31 ≤ (decode raw).imm ∧
      ∀ i, 11 ≤ i → i ≤ 31 → (decode raw).imm.testBit i = true) := by
  have himm := decode_imm_of_IType hop
  have hs : raw.testBit 31 = decide (raw / 2 ^ 31 % 2 = 1) := Nat.testBit_to_div_mod
  have hm : raw / 2 ^ 20 % 4096 < 4096 := Nat.mod_lt _ (by decide)
  have hsign : raw / 2 ^ 20 % 4096 / 2048 = raw / 2 ^ 31 % 2 := by omega
  obtain ⟨h1, h2, h3⟩ := sext12_layout hm himm
  refine ⟨h1, ?_, ?_, ?_, ?_⟩
  · show (decode raw).imm / 2 ^ 0 % 4096 = raw / 2 ^ 20 % 4096
    omega
  · intro i hi1 hi2
    apply testBit_congr_div_mod
    rw [h3 i hi1 hi2, hsign]
  · rw [hs, h2]
    have ha : raw / 2 ^ 31 % 2 = 0 ∨ raw / 2 ^ 31 % 2 = 1 := by omega
    rcases ha with ha | ha
    · rw [himm, hsign, ha]; simp
    · rw [himm, hsign, ha]; simp; omega
  · intro _ hb
    have hb' : raw / 2 ^ 20 % 4096 = 0x800 := hb
    have hv : (decode raw).imm = 0xFFFFF800 := by rw [himm, hb']
    rw [hv]
    refine ⟨rfl, by decide, ?_⟩
    intro i hi1 hi2
    interval_cases i <;> decide

theorem C6_itype_immediate_witness : (decode 0x80052503).imm = 0xFFFFF800 :=
  ((C6_itype_immediate 0x80052503 (by decide) (Or.inl (by decide))).2.2.2.2
    (by decide) (by decide)).1

theorem classify_cases (p : Nat) :
    (p = 0x37 ∧ classify p = (Opcode.LUI, "LUI")) ∨
    (p = 0x17 ∧ classify p = (Opcode.AUIPC, "AUIPC")) ∨
    (p = 0x6F ∧ classify p = (Opcode.JAL, "JAL")) ∨
    (p = 0x67 ∧ classify p = (Opcode.JALR, "JALR")) ∨
    (p = 0x63 ∧ classify p = (Opcode.BRANCH, "BRANCH")) ∨
    (p = 0x03 ∧ classify p = (Opcode.LOAD, "LOAD")) ∨
    (p = 0x23 ∧ classify p = (Opcode.STORE, "STORE")) ∨
    (p = 0x13 ∧ classify p = (Opcode.OP_IMM, "OP_IMM")) ∨
    (p = 0x33 ∧ classify p = (Opcode.OP, "OP")) ∨
    (p = 0x73 ∧ classify p = (Opcode.SYSTEM, "SYSTEM")) ∨
    (p ∉ knownOpcodes ∧ classify p = (Opcode.INVALID, "INVALID")) := by
  unfold classify
  split_ifs with h1 h2 h3 h4 h5 h6 h7 h8 h9 h10
  · exact Or.inl ⟨h1, rfl⟩
  · exact Or.inr (Or.inl ⟨h2, rfl⟩)
  · exact Or.inr (Or.inr (Or.inl ⟨h3, rfl⟩))
  · exact Or.inr (Or.inr (Or.inr (Or.inl ⟨h4, rfl⟩)))
  · exact Or.inr (Or.inr (Or.inr (Or.inr (Or.inl ⟨h5, rfl⟩))))
  · exact Or.inr (Or.inr (Or.inr (Or.inr (Or.inr (Or.inl ⟨h6, rfl⟩)))))
  · exact Or.inr (Or.inr (Or.inr (Or.inr (Or.inr (Or.inr (Or.inl ⟨h7, rfl⟩))))))
  · exact Or.inr (Or.inr (Or.inr (Or.inr (Or.inr (Or.inr (Or.inr (Or.inl ⟨h8, rfl⟩)))))))
  · exact Or.inr (Or.inr (Or.inr (Or.inr (Or.inr (Or.inr (Or.inr (Or.inr
      (Or.inl ⟨h9, rfl⟩))))))))
  · exact Or.inr (Or.inr (Or.inr (Or.inr (Or.inr (Or.inr (Or.inr (Or.inr
      (Or.inr (Or.inl ⟨h10, rfl⟩)))))))))
  · refine Or.inr (Or.inr (Or.inr (Or.inr (Or.inr (Or.inr (Or.inr (Or.inr
      (Or.inr (Or.inr ⟨?_, rfl⟩)))))))))
    simp only [knownOpcodes, List.mem_cons, List.mem_singleton, List.not_mem_nil, or_false,
      not_or]
    exact ⟨h1, h2, h3, h4, h5, h6, h7, h8, h9, h10⟩

theorem decode_class (raw : Nat) :
    (decode raw).opcode = (classify (raw &&& 0x7F)).1 ∧
    (decode raw).debugMnemonic = (classify (raw &&& 0x7F)).2 ∧
    (decode raw).imm = decodeImm (classify (raw &&& 0x7F)).1 raw := by
  rw [decode_eq, and_0x7F]
  exact ⟨rfl, rfl, rfl⟩

/-- C7: for a word whose primary opcode field is 0x37 or 0x17, `imm` is
`raw & 0xFFFFF000`: its bits [31:12] are those of the word and its low 12
bits are zero, nothing else being done to it. -/
theorem C7_utype_immediate (raw : Nat) (hraw : raw < 2 ^ 32)
    (hop : raw &&& 0x7F = 0x37 ∨ raw &&& 0x7F = 0x17) :
    (decode raw).imm = raw &&& 0xFFFFF000 ∧
    bits (decode raw).imm 31 12 = bits raw 31 12 ∧
    bits (decode raw).imm 11 0 = 0 ∧
    (decode raw).imm < 2 ^ 32 := by
  have himm : (decode raw).imm = raw &&& 0xFFFFF000 := by
    rw [(decode_class raw).2.2]
    rcases hop with hop | hop <;> rw [hop] <;> rfl
  have harith : (decode raw).imm = 4096 * (raw / 4096) := by
    rw [himm]
    exact and_0xFFFFF000 hraw
  refine ⟨himm, ?_, ?_, ?_⟩
  · show (decode raw).imm / 2 ^ 12 % 2 ^ 20 = raw / 2 ^ 12 % 2 ^ 20
    omega
  · show (decode raw).imm / 2 ^ 0 % 2 ^ 12 = 0
    omega
  · omega

theorem C7_utype_immediate_witness :
    (decode 0x123452B7).imm = 0x123452B7 &&& 0xFFFFF000 ∧
    bits (decode 0x123452B7).imm 31 12 = bits 0x123452B7 31 12 ∧
    bits (decode 0x123452B7).imm 11 0 = 0 ∧
    (decode 0x123452B7).imm < 2 ^ 32 :=
  C7_utype_immediate 0x123452B7 (by decide) (Or.inl (by decide))

/-- C8: a word decodes to class OP or INVALID exactly when its primary opcode
field is 0x33 or none of the ten known values, and then `imm` is 0 whatever
its other 25 bits are; the word 0 decodes to INVALID with `imm` 0. -/
theorem C8_no_immediate (raw : Nat) (_hraw : raw < 2 ^ 32) :
    (((decode raw).opcode = Opcode.OP ∨ (decode raw).opcode = Opcode.INVALID) ↔
      (raw &&& 0x7F = 0x33 ∨ raw &&& 0x7F ∉ knownOpcodes)) ∧
    ((decode raw).opcode = Opcode.OP ∨ (decode raw).opcode = Opcode.INVALID →
      (decode raw).imm = 0) ∧
    (raw &&& 0x7F = 0x33 ∨ raw &&& 0x7F ∉ knownOpcodes → (decode raw).imm = 0) ∧
    (decode 0x00000000).opcode = Opcode.INVALID ∧ (decode 0x00000000).imm = 0 := by
  obtain ⟨hc, -, hi⟩ := decode_class raw
  have himm : (decode raw).opcode = Opcode.OP ∨ (decode raw).opcode = Opcode.INVALID →
      (decode raw).imm = 0 := by
    intro h
    rw [hi, ← hc]
    rcases h with h | h <;> rw [h] <;> rfl
  have hiff : ((decode raw).opcode = Opcode.OP ∨ (decode raw).opcode = Opcode.INVALID) ↔
      (raw &&& 0x7F = 0x33 ∨ raw &&& 0x7F ∉ knownOpcodes) := by
    rw [hc]
    rcases classify_cases (raw &&& 0x7F) with h | h | h | h | h | h | h | h | h | h | h <;>
      obtain ⟨h1, h2⟩ := h <;> rw [h2] <;>
      first
        | (simp [h1]; done)
        | simp [h1, knownOpcodes]
  exact ⟨hiff, himm, fun h => himm (hiff.2 h), by decide, by decide⟩

theorem C8_no_immediate_witness :
    (decode 0xFFFFFFB3).opcode = Opcode.OP ∧ (decode 0xFFFFFFB3).imm = 0 ∧
    (decode 0xFFFFFFFF).opcode = Opcode.INVALID ∧ (decode 0xFFFFFFFF).imm = 0 :=
  ⟨by decide, (C8_no_immediate 0xFFFFFFB3 (by decide)).2.2.1 (Or.inl (by decide)),
   by decide, (C8_no_immediate 0xFFFFFFFF (by decide)).2.2.1 (Or.inr (by decide))⟩

theorem high_bits_JAL {raw : Nat} (hop : raw &&& 0x7F = 0x6F) (i : Nat) (h1 : 20 ≤ i)
    (h2 : i ≤ 31) : (decode raw).imm.testBit i = raw.testBit 31 :=
  testBit_congr_div_mod
    ((jal_layout (Nat.mod_lt _ (by decide)) (Nat.mod_lt _ (by decide))
      (Nat.mod_lt _ (by decide)) (Nat.mod_lt _ (by decide))
      (decode_imm_of_JAL hop)).2.2.2.2.2.1 i h1 h2)

theorem high_bits_BRANCH {raw : Nat} (hop : raw &&& 0x7F = 0x63) (i : Nat) (h1 : 12 ≤ i)
    (h2 : i ≤ 31) : (decode raw).imm.testBit i = raw.testBit 31 :=
  testBit_congr_div_mod
    ((branch_layout (Nat.mod_lt _ (by decide)) (Nat.mod_lt _ (by decide))
      (Nat.mod_lt _ (by decide)) (Nat.mod_lt _ (by decide))
      (decode_imm_of_BRANCH hop)).2.2.2.2.2.1 i h1 h2)

theorem high_bits_STORE {raw : Nat} (hop : raw &&& 0x7F = 0x23) (i : Nat) (h1 : 12 ≤ i)
    (h2 : i ≤ 31) : (decode raw).imm.testBit i = raw.testBit 31 := by
  have hf := store_fields (Nat.mod_lt (raw / 2 ^ 25) (by decide : 0 < 128))
    (Nat.mod_lt (raw / 2 ^ 7) (by decide : 0 < 32))
  have himm2 : (decode raw).imm =
      (raw / 2 ^ 25 % 128 * 2 ^ 5 + raw / 2 ^ 7 % 32) / 2048 * 0xFFFFF000
        + (raw / 2 ^ 25 % 128 * 2 ^ 5 + raw / 2 ^ 7 % 32) := by
    rw [hf.2, decode_imm_of_STORE hop, Nat.add_assoc]
  apply testBit_congr_div_mod
  rw [(sext12_layout hf.1 himm2).2.2 i h1 h2, hf.2, sign_of_funct7]

theorem high_bits_IType {raw : Nat}
    (hop : raw &&& 0x7F = 0x03 ∨ raw &&& 0x7F = 0x67 ∨ raw &&& 0x7F = 0x13 ∨
      raw &&& 0x7F = 0x73) (i : Nat) (h1 : 12 ≤ i)
    (h2 : i ≤ 31) : (decode raw).imm.testBit i = raw.testBit 31 := by
  have hsign : raw / 2 ^ 20 % 4096 / 2048 = raw / 2 ^ 31 % 2 := by omega
  apply testBit_congr_div_mod
  rw [(sext12_layout (Nat.mod_lt _ (by decide)) (decode_imm_of_IType hop)).2.2 i h1 h2, hsign]

theorem high_bit_UType {raw : Nat} (hraw : raw < 2 ^ 32)
    (hop : raw &&& 0x7F = 0x37 ∨ raw &&& 0x7F = 0x17) :
    (decode raw).imm.testBit 31 = raw.testBit 31 := by
  have himm : (decode raw).imm = 4096 * (raw / 4096) := by
    rw [(decode_class raw).2.2]
    rcases hop with hop | hop <;> rw [hop]
    · exact decodeImm_LUI hraw
    · exact decodeImm_AUIPC hraw
  apply testBit_congr_div_mod
  omega

theorem imm_high_bits (raw : Nat) (hraw : raw < 2 ^ 32)
    (hcls : (decode raw).opcode ≠ Opcode.OP ∧ (decode raw).opcode ≠ Opcode.INVALID)
    (i : Nat) (h1 : immWidth (decode raw).opcode ≤ i ∨ i = 31) (h2 : i ≤ 31) :
    (decode raw).imm.testBit i = raw.testBit 31 := by
  have hc := (decode_class raw).1
  rcases classify_cases (raw &&& 0x7F) with h | h | h | h | h | h | h | h | h | h | h <;>
    obtain ⟨hop, hv⟩ := h <;> rw [hv] at hc <;> rw [hc] at h1 hcls <;>
    simp only [immWidth] at h1
  · have h3 : i = 31 := by omega
    rw [h3]
    exact high_bit_UType hraw (Or.inl hop)
  · have h3 : i = 31 := by omega
    rw [h3]
    exact high_bit_UType hraw (Or.inr hop)
  · exact high_bits_JAL hop i (by omega) h2
  · exact high_bits_IType (Or.inr (Or.inl hop)) i (by omega) h2
  · exact high_bits_BRANCH hop i (by omega) h2
  · exact high_bits_IType (Or.inl hop) i (by omega) h2
  · exact high_bits_STORE hop i (by omega) h2
  · exact high_bits_IType (Or.inr (Or.inr (Or.inl hop))) i (by omega) h2
  · exact absurd rfl hcls.1
  · exact high_bits_IType (Or.inr (Or.inr (Or.inr hop))) i (by omega) h2
  · exact absurd rfl hcls.2

/-- C9: for a word that decodes to a class with an immediate, bit 31 of `imm`
is bit 31 of the word, and so is every bit of `imm` from the natural width
of the format up to bit 31 (21..31 for JAL, 13..31 for BRANCH, 12..31 for
STORE, LOAD, JALR, OP_IMM and SYSTEM); two words of one class with the same
bit 31 therefore agree on all those bits. -/
theorem C9_sign_extension (raw : Nat) (hraw : raw < 2 ^ 32)
    (hcls : (decode raw).opcode ≠ Opcode.OP ∧ (decode raw).opcode ≠ Opcode.INVALID) :
    (decode raw).imm.testBit 31 = raw.testBit 31 ∧
    (∀ i, immWidth (decode raw).opcode ≤ i → i ≤ 31 →
      (decode raw).imm.testBit i = raw.testBit 31) ∧
    ((decode raw).opcode = Opcode.JAL →
      ∀ i, 21 ≤ i → i ≤ 31 → (decode raw).imm.testBit i = raw.testBit 31) ∧
    ((decode raw).opcode = Opcode.BRANCH →
      ∀ i, 13 ≤ i → i ≤ 31 → (decode raw).imm.testBit i = raw.testBit 31) ∧
    ((decode raw).opcode = Opcode.STORE ∨ (decode raw).opcode = Opcode.LOAD ∨
      (decode raw).opcode = Opcode.JALR ∨ (decode raw).opcode = Opcode.OP_IMM ∨
      (decode raw).opcode = Opcode.SYSTEM →
      ∀ i, 12 ≤ i → i ≤ 31 → (decode raw).imm.testBit i = raw.testBit 31) ∧
    (∀ other, other < 2 ^ 32 → (decode other).opcode = (decode raw).opcode →
      other.testBit 31 = raw.testBit 31 →
      ∀ i, (immWidth (decode raw).opcode ≤ i ∨ i = 31) → i ≤ 31 →
        (decode other).imm.testBit i = (decode raw).imm.testBit i) := by
  have h := imm_high_bits raw hraw hcls
  refine ⟨h 31 (Or.inr rfl) (Nat.le_refl _), fun i h1 h2 => h i (Or.inl h1) h2, ?_, ?_, ?_, ?_⟩
  · intro hc i h1 h2
    exact h i (Or.inl (by rw [hc]; exact h1)) h2
  · intro hc i h1 h2
    exact h i (Or.inl (by rw [hc]; exact h1)) h2
  · intro hc i h1 h2
    refine h i (Or.inl ?_) h2
    rcases hc with hc | hc | hc | hc | hc <;> rw [hc] <;> exact h1
  · intro other ho hsame hbit i h1 h2
    rw [h i h1 h2, ← hbit]
    exact imm_high_bits other ho (by rw [hsame]; exact hcls) i (by rw [hsame]; exact h1) h2

theorem C9_sign_extension_witness :
    (decode 0x800000EF).imm.testBit 31 = Nat.testBit 0x800000EF 31 ∧
    (decode 0x800000EF).imm.testBit 21 = Nat.testBit 0x800000EF 31 :=
  ⟨(C9_sign_extension 0x800000EF (by decide) (by decide)).1,
   (C9_sign_extension 0x800000EF (by decide) (by decide)).2.2.1 (by decide) 21
     (by decide) (by decide)⟩

theorem encodeR_eq (funct7 : Nat) {rs2 rs1 funct3 rd : Nat} (h2 : rs2 < 32) (h1 : rs1 < 32)
    (h3 : funct3 < 8) (hd : rd < 32) :
    encodeR funct7 rs2 rs1 funct3 rd =
      funct7 * 2 ^ 25 + rs2 * 2 ^ 20 + rs1 * 2 ^ 15 + funct3 * 2 ^ 12 + rd * 2 ^ 7 + 0x33 := by
  simp (disch := omega) only [encodeR, Nat.shiftLeft_eq, or_eq_add 25, or_eq_add 20,
    or_eq_add 15, or_eq_add 12, or_eq_add 7]

/-- C10: for rd, rs1, rs2 below 32, funct3 below 8 and funct7 below 128, the
word `(funct7 << 25) | (rs2 << 20) | (rs1 << 15) | (funct3 << 12) | (rd << 7)
| 0x33` is a 32-bit word that decodes to class OP with label "OP", exactly
those five fields and `imm` 0; it is 0x00C58533 for rd 10, rs1 11, rs2 12,
funct3 0 and funct7 0. -/
theorem C10_rtype_roundtrip (funct7 rs2 rs1 funct3 rd : Nat) (h7 : funct7 < 128)
    (h2 : rs2 < 32) (h1 : rs1 < 32) (h3 : funct3 < 8) (hd : rd < 32) :
    encodeR funct7 rs2 rs1 funct3 rd < 2 ^ 32 ∧
    (decode (encodeR funct7 rs2 rs1 funct3 rd)).opcode = Opcode.OP ∧
    (decode (encodeR funct7 rs2 rs1 funct3 rd)).debugMnemonic = "OP" ∧
    (decode (encodeR funct7 rs2 rs1 funct3 rd)).rd = rd ∧
    (decode (encodeR funct7 rs2 rs1 funct3 rd)).rs1 = rs1 ∧
    (decode (encodeR funct7 rs2 rs1 funct3 rd)).rs2 = rs2 ∧
    (decode (encodeR funct7 rs2 rs1 funct3 rd)).funct3 = funct3 ∧
    (decode (encodeR funct7 rs2 rs1 funct3 rd)).funct7 = funct7 ∧
    (decode (encodeR funct7 rs2 rs1 funct3 rd)).imm = 0 ∧
    encodeR 0 12 11 0 10 = 0x00C58533 := by
  have hw := encodeR_eq funct7 h2 h1 h3 hd
  generalize encodeR funct7 rs2 rs1 funct3 rd = w at hw
  have hp : w % 128 = 0x33 := by omega
  have hcl : classify (w % 128) = (Opcode.OP, "OP") := by rw [hp]; rfl
  rw [decode_eq, hcl]
  refine ⟨?_, rfl, rfl, ?_, ?_, ?_, ?_, ?_, rfl, by decide⟩
  · omega
  · show w / 2 ^ 7 % 32 = rd
    omega
  · show w / 2 ^ 15 % 32 = rs1
    omega
  · show w / 2 ^ 20 % 32 = rs2
    omega
  · show w / 2 ^ 12 % 8 = funct3
    omega
  · show w / 2 ^ 25 % 128 = funct7
    omega

theorem C10_rtype_roundtrip_witness :
    encodeR 0 12 11 0 10 < 2 ^ 32 ∧
    (decode (encodeR 0 12 11 0 10)).opcode = Opcode.OP ∧
    (decode (encodeR 0 12 11 0 10)).debugMnemonic = "OP" ∧
    (decode (encodeR 0 12 11 0 10)).rd = 10 ∧
    (decode (encodeR 0 12 11 0 10)).rs1 = 11 ∧
    (decode (encodeR 0 12 11 0 10)).rs2 = 12 ∧
    (decode (encodeR 0 12 11 0 10)).funct3 = 0 ∧
    (decode (encodeR 0 12 11 0 10)).funct7 = 0 ∧
    (decode (encodeR 0 12 11 0 10)).imm = 0 ∧
    encodeR 0 12 11 0 10 = 0x00C58533 :=
  C10_rtype_roundtrip 0 12 11 0 10 (by decide) (by decide) (by decide) (by decide) (by decide)

theorem encodeU_eq (v : Nat) {rd : Nat} (hd : rd < 32) :
    encodeU v rd = v * 2 ^ 12 + rd * 2 ^ 7 + 0x37 := by
  simp (disch := omega) only [encodeU, Nat.shiftLeft_eq, or_eq_add 12, or_eq_add 7]

/-- C11: for a 20-bit value v and rd below 32, the word `(v << 12) | (rd << 7)
| 0x37` is a 32-bit word that decodes to class LUI with label "LUI", that rd
and `imm = v << 12` modulo 2^32; for v = 0x12345 and rd = 5 the immediate is
0x12345000. -/
theorem C11_utype_roundtrip (v rd : Nat) (hv : v < 2 ^ 20) (hd : rd < 32) :
    encodeU v rd < 2 ^ 32 ∧
    (decode (encodeU v rd)).opcode = Opcode.LUI ∧
    (decode (encodeU v rd)).debugMnemonic = "LUI" ∧
    (decode (encodeU v rd)).rd = rd ∧
    (decode (encodeU v rd)).imm = (v <<< 12) % 2 ^ 32 ∧
    (decode (encodeU 0x12345 5)).imm = 0x12345000 := by
  have hw := encodeU_eq v hd
  have hlt : encodeU v rd < 2 ^ 32 := by omega
  have himm := decodeImm_LUI hlt
  generalize encodeU v rd = w at hw hlt himm
  have hp : w % 128 = 0x37 := by omega
  have hcl : classify (w % 128) = (Opcode.LUI, "LUI") := by rw [hp]; rfl
  rw [decode_eq, hcl]
  refine ⟨hlt, rfl, rfl, ?_, ?_, by decide⟩
  · show w / 2 ^ 7 % 32 = rd
    omega
  · show decodeImm Opcode.LUI w = (v <<< 12) % 2 ^ 32
    rw [himm, Nat.shiftLeft_eq]
    omega

theorem C11_utype_roundtrip_witness :
    encodeU 0x12345 5 < 2 ^ 32 ∧
    (decode (encodeU 0x12345 5)).opcode = Opcode.LUI ∧
    (decode (encodeU 0x12345 5)).debugMnemonic = "LUI" ∧
    (decode (encodeU 0x12345 5)).rd = 5 ∧
    (decode (encodeU 0x12345 5)).imm = (0x12345 <<< 12) % 2 ^ 32 ∧
    (decode (encodeU 0x12345 5)).imm = 0x12345000 :=
  C11_utype_roundtrip 0x12345 5 (by decide) (by decide)

theorem decode_label (raw : Nat) :
    (decode raw).debugMnemonic = className (decode raw).opcode := by
  obtain ⟨hc, hm, -⟩ := decode_class raw
  rw [hc, hm]
  rcases classify_cases (raw &&& 0x7F) with h | h | h | h | h | h | h | h | h | h | h <;>
    rw [h.2] <;> rfl

/-- C12: the label `decode` stores is the name of the class it stores, so two
words that decode to the same class carry the same label. -/
theorem C12_label_of_class (a b : Nat) (_ha : a < 2 ^ 32) (_hb : b < 2 ^ 32) :
    (decode a).debugMnemonic = className (decode a).opcode ∧
    ((decode a).opcode = (decode b).opcode →
      (decode a).debugMnemonic = (decode b).debugMnemonic) ∧
    className Opcode.LUI = "LUI" ∧ className Opcode.AUIPC = "AUIPC" ∧
    className Opcode.JAL = "JAL" ∧ className Opcode.JALR = "JALR" ∧
    className Opcode.BRANCH = "BRANCH" ∧ className Opcode.LOAD = "LOAD" ∧
    className Opcode.STORE = "STORE" ∧ className Opcode.OP_IMM = "OP_IMM" ∧
    className Opcode.OP = "OP" ∧ className Opcode.SYSTEM = "SYSTEM" ∧
    className Opcode.INVALID = "INVALID" := by
  refine ⟨decode_label a, ?_, rfl, rfl, rfl, rfl, rfl, rfl, rfl, rfl, rfl, rfl, rfl⟩
  intro h
  rw [decode_label a, decode_label b, h]

theorem C12_label_of_class_witness :
    (decode 0x00C58533).debugMnemonic = (decode 0xFFFFFFB3).debugMnemonic :=
  (C12_label_of_class 0x00C58533 0xFFFFFFB3 (by decide) (by decide)).2.1 (by decide)

/-- C13: `decode` stores the word it was given in `fetchInstr`, unchanged,
whatever the class. -/
theorem C13_raw_preserved (raw : Nat) (hraw : raw < 2 ^ 32) :
    (decode raw).fetchInstr = raw ∧ (decode raw).fetchInstr < 2 ^ 32 :=
  ⟨rfl, hraw⟩

theorem C13_raw_preserved_witness :
    (decode 0xFFFFFFFF).fetchInstr = 0xFFFFFFFF ∧ (decode 0xFFFFFFFF).fetchInstr < 2 ^ 32 :=
  C13_raw_preserved 0xFFFFFFFF (by decide)

theorem field_of_class {raw : Nat} {c : Opcode} (h : (decode raw).opcode = c) :
    c = Opcode.INVALID ∨ opcodeField c = some (raw &&& 0x7F) := by
  rw [decode_opcode] at h
  rcases classify_cases (raw &&& 0x7F) with k | k | k | k | k | k | k | k | k | k | k <;>
    obtain ⟨k1, k2⟩ := k <;> rw [k2] at h <;> subst h
  · exact Or.inr (by rw [k1]; rfl)
  · exact Or.inr (by rw [k1]; rfl)
  · exact Or.inr (by rw [k1]; rfl)
  · exact Or.inr (by rw [k1]; rfl)
  · exact Or.inr (by rw [k1]; rfl)
  · exact Or.inr (by rw [k1]; rfl)
  · exact Or.inr (by rw [k1]; rfl)
  · exact Or.inr (by rw [k1]; rfl)
  · exact Or.inr (by rw [k1]; rfl)
  · exact Or.inr (by rw [k1]; rfl)
  · exact Or.inl rfl

theorem class_of_field {raw : Nat} {c : Opcode} (h : opcodeField c = some (raw &&& 0x7F)) :
    (decode raw).opcode = c := by
  rw [decode_opcode]
  cases c <;> simp only [opcodeField, Option.some.injEq, reduceCtorEq] at h <;> rw [← h] <;> rfl

theorem invalid_of_unknown {raw : Nat} (h : raw &&& 0x7F ∉ knownOpcodes) :
    (decode raw).opcode = Opcode.INVALID := by
  rw [decode_opcode]
  rcases classify_cases (raw &&& 0x7F) with k | k | k | k | k | k | k | k | k | k | k
  all_goals first
    | exact absurd (by rw [k.1]; decide) h
    | rw [k.2]

/-- C14 as stated fails: the patterns 0x00 and 0x7F both decode to INVALID, so
INVALID has no single pattern of its own, and the correspondence between all
eleven classes and patterns is not one to one. -/
theorem C14_not_one_to_one :
    (decode 0x00).opcode = Opcode.INVALID ∧ (decode 0x7F).opcode = Opcode.INVALID ∧
    ¬ (∀ c : Opcode, ∃! p : Nat, p < 128 ∧
        ∀ raw, raw < 2 ^ 32 → raw &&& 0x7F = p → (decode raw).opcode = c) := by
  refine ⟨by decide, by decide, ?_⟩
  intro h
  obtain ⟨p, -, huniq⟩ := h Opcode.INVALID
  have h0 : (0 : Nat) = p := huniq 0 ⟨by decide, fun raw _ hr =>
    invalid_of_unknown (by rw [hr]; decide)⟩
  have h1 : (1 : Nat) = p := huniq 1 ⟨by decide, fun raw _ hr =>
    invalid_of_unknown (by rw [hr]; decide)⟩
  omega

/-- C14 amended: each of the ten classes other than INVALID has exactly one
7-bit pattern whose words decode to it, namely its primary opcode value,
while INVALID is the class of every one of the other 118 patterns. -/
theorem C14_known_classes_one_to_one (c : Opcode) (hc : c ≠ Opcode.INVALID) :
    (∃! p : Nat, p < 128 ∧
      ∀ raw, raw < 2 ^ 32 → raw &&& 0x7F = p → (decode raw).opcode = c) ∧
    (∃ p, opcodeField c = some p ∧ p ∈ knownOpcodes ∧
      ∀ raw, raw < 2 ^ 32 → ((decode raw).opcode = c ↔ raw &&& 0x7F = p)) ∧
    (∀ raw, raw < 2 ^ 32 →
      ((decode raw).opcode = Opcode.INVALID ↔ raw &&& 0x7F ∉ knownOpcodes)) ∧
    ((List.range 128).filter (fun p => decide (p ∉ knownOpcodes))).length = 118 := by
  have hex : ∃ p, opcodeField c = some p ∧ p ∈ knownOpcodes ∧ p < 128 := by
    cases c
    case INVALID => exact absurd rfl hc
    all_goals exact ⟨_, rfl, by decide, by decide⟩
  obtain ⟨p, hp, hknown, hlt⟩ := hex
  have hiff : ∀ raw, (decode raw).opcode = c ↔ raw &&& 0x7F = p := by
    intro raw
    constructor
    · intro h
      rcases field_of_class h with h1 | h1
      · exact absurd h1 hc
      · rw [hp] at h1
        exact (Option.some.inj h1).symm
    · intro h
      exact class_of_field (by rw [hp, h])
  refine ⟨⟨p, ⟨hlt, fun raw _ h => (hiff raw).2 h⟩, ?_⟩, ⟨p, hp, hknown, fun raw _ => hiff raw⟩,
    ?_, rfl⟩
  · rintro q ⟨hq, hall⟩
    have hq2 : q &&& 0x7F = q := by rw [and_0x7F]; omega
    have := (hiff q).1 (hall q (by omega) hq2)
    rw [hq2] at this
    exact this
  · intro raw _
    constructor
    · intro h hmem
      rw [decode_opcode] at h
      rcases classify_cases (raw &&& 0x7F) with k | k | k | k | k | k | k | k | k | k | k
      all_goals first
        | exact k.1 hmem
        | (rw [k.2] at h; exact Opcode.noConfusion h)
    · exact invalid_of_unknown

theorem C14_known_classes_one_to_one_witness :
    ∃! p : Nat, p < 128 ∧
      ∀ raw, raw < 2 ^ 32 → raw &&& 0x7F = p → (decode raw).opcode = Opcode.OP :=
  (C14_known_classes_one_to_one Opcode.OP (by decide)).1

theorem decodeImmChecked_eq (opcode : Opcode) (raw : Nat) :
    decodeImmChecked opcode raw = some (decodeImm opcode raw) := by
  cases opcode <;> rfl

theorem decodeChecked_eq (raw : Nat) : decodeChecked raw = some (decode raw) := by
  simp only [decodeChecked, shr32, decodeImmChecked_eq]
  rfl

theorem imm_lt (raw : Nat) (hraw : raw < 2 ^ 32) : (decode raw).imm < 2 ^ 32 := by
  obtain ⟨-, -, hi⟩ := decode_class raw
  rcases classify_cases (raw &&& 0x7F) with k | k | k | k | k | k | k | k | k | k | k <;>
    obtain ⟨k1, k2⟩ := k
  · rw [hi, k2, decodeImm_LUI hraw]; omega
  · rw [hi, k2, decodeImm_AUIPC hraw]; omega
  · exact (jal_layout (Nat.mod_lt _ (by decide)) (Nat.mod_lt _ (by decide))
      (Nat.mod_lt _ (by decide)) (Nat.mod_lt _ (by decide)) (decode_imm_of_JAL k1)).1
  · exact (sext12_layout (Nat.mod_lt _ (by decide))
      (decode_imm_of_IType (Or.inr (Or.inl k1)))).1
  · exact (branch_layout (Nat.mod_lt _ (by decide)) (Nat.mod_lt _ (by decide))
      (Nat.mod_lt _ (by decide)) (Nat.mod_lt _ (by decide)) (decode_imm_of_BRANCH k1)).1
  · exact (sext12_layout (Nat.mod_lt _ (by decide)) (decode_imm_of_IType (Or.inl k1))).1
  · have hf := store_fields (Nat.mod_lt (raw / 2 ^ 25) (by decide : 0 < 128))
      (Nat.mod_lt (raw / 2 ^ 7) (by decide : 0 < 32))
    have himm2 : (decode raw).imm =
        (raw / 2 ^ 25 % 128 * 2 ^ 5 + raw / 2 ^ 7 % 32) / 2048 * 0xFFFFF000
          + (raw / 2 ^ 25 % 128 * 2 ^ 5 + raw / 2 ^ 7 % 32) := by
      rw [hf.2, decode_imm_of_STORE k1, Nat.add_assoc]
    exact (sext12_layout hf.1 himm2).1
  · exact (sext12_layout (Nat.mod_lt _ (by decide))
      (decode_imm_of_IType (Or.inr (Or.inr (Or.inl k1))))).1
  · rw [hi, k2]; exact Nat.two_pow_pos 32
  · exact (sext12_layout (Nat.mod_lt _ (by decide))
      (decode_imm_of_IType (Or.inr (Or.inr (Or.inr k1))))).1
  · rw [hi, k2]; exact Nat.two_pow_pos 32

/-- C15: `decode` is defined on every 32-bit word: the decoder in which a
shift by 32 or more has no result still returns, and returns `decode raw`;
every field of the result is populated with a value of its type, `fetchInstr`
and `imm` below 2^32, the five byte fields below 2^8, the label the name of
the class. -/
theorem C15_total (raw : Nat) (hraw : raw < 2 ^ 32) :
    decodeChecked raw = some (decode raw) ∧
    (decode raw).fetchInstr < 2 ^ 32 ∧ (decode raw).imm < 2 ^ 32 ∧
    (decode raw).rs1 < 2 ^ 8 ∧ (decode raw).rs2 < 2 ^ 8 ∧ (decode raw).rd < 2 ^ 8 ∧
    (decode raw).funct3 < 2 ^ 8 ∧ (decode raw).funct7 < 2 ^ 8 ∧
    (decode raw).debugMnemonic = className (decode raw).opcode ∧
    (decode raw).debugMnemonic ≠ "" := by
  refine ⟨decodeChecked_eq raw, hraw, imm_lt raw hraw, ?_, ?_, ?_, ?_, ?_, decode_label raw, ?_⟩
  · rw [decode_eq]; show raw / 2 ^ 15 % 32 < 2 ^ 8; omega
  · rw [decode_eq]; show raw / 2 ^ 20 % 32 < 2 ^ 8; omega
  · rw [decode_eq]; show raw / 2 ^ 7 % 32 < 2 ^ 8; omega
  · rw [decode_eq]; show raw / 2 ^ 12 % 8 < 2 ^ 8; omega
  · rw [decode_eq]; show raw / 2 ^ 25 % 128 < 2 ^ 8; omega
  · rw [decode_label]
    cases (decode raw).opcode <;> decide

theorem C15_total_witness :
    decodeChecked 0xFFFFFFFF = some (decode 0xFFFFFFFF) ∧ (decode 0xFFFFFFFF).imm < 2 ^ 32 :=
  ⟨(C15_total 0xFFFFFFFF (by decide)).1, (C15_total 0xFFFFFFFF (by decide)).2.2.1⟩

theorem classifyInto_eq (instr : Instruction) (opcode_field : Nat) :
    classifyInto instr opcode_field =
      { instr with opcode := (classify opcode_field).1,
                   debugMnemonic := (classify opcode_field).2 } := by
  unfold classifyInto classify
  by_cases h1 : opcode_field = 0x37
  · rw [if_pos h1, if_pos h1]
  rw [if_neg h1, if_neg h1]
  by_cases h2 : opcode_field = 0x17
  · rw [if_pos h2, if_pos h2]
  rw [if_neg h2, if_neg h2]
  by_cases h3 : opcode_field = 0x6F
  · rw [if_pos h3, if_pos h3]
  rw [if_neg h3, if_neg h3]
  by_cases h4 : opcode_field = 0x67
  · rw [if_pos h4, if_pos h4]
  rw [if_neg h4, if_neg h4]
  by_cases h5 : opcode_field = 0x63
  · rw [if_pos h5, if_pos h5]
  rw [if_neg h5, if_neg h5]
  by_cases h6 : opcode_field = 0x03
  · rw [if_pos h6, if_pos h6]
  rw [if_neg h6, if_neg h6]
  by_cases h7 : opcode_field = 0x23
  · rw [if_pos h7, if_pos h7]
  rw [if_neg h7, if_neg h7]
  by_cases h8 : opcode_field = 0x13
  · rw [if_pos h8, if_pos h8]
  rw [if_neg h8, if_neg h8]
  by_cases h9 : opcode_field = 0x33
  · rw [if_pos h9, if_pos h9]
  rw [if_neg h9, if_neg h9]
  by_cases h10 : opcode_field = 0x73
  · rw [if_pos h10, if_pos h10]
  rw [if_neg h10, if_neg h10]

theorem immInto_eq (instr : Instruction) (raw : Nat) :
    immInto instr raw = { instr with imm := decodeImm instr.opcode raw } := by
  obtain ⟨f, op, r1, r2, rd, im, f3, f7, m⟩ := instr
  cases op <;> simp only [immInto, decodeImm] <;> split_ifs <;> rfl

theorem decodeFrom_eq (init : Instruction) (raw : Nat) : decodeFrom init raw = decode raw := by
  simp only [decodeFrom, classifyInto_eq, immInto_eq]
  rfl

/-- C16: two calls of `decode` on the same word return records that agree in
every one of the nine fields, whatever the object `instr` held in either call
before its first assignment: every field is assigned on every path of the
body, so the result is a function of the word alone, the record `decode raw`.
The source starts each call from the value-initialised object. -/
theorem C16_deterministic (raw : Nat) (_hraw : raw < 2 ^ 32) (init1 init2 : Instruction) :
    decodeFrom init1 raw = decodeFrom init2 raw ∧
    (decodeFrom init1 raw).fetchInstr = (decodeFrom init2 raw).fetchInstr ∧
    (decodeFrom init1 raw).opcode = (decodeFrom init2 raw).opcode ∧
    (decodeFrom init1 raw).rs1 = (decodeFrom init2 raw).rs1 ∧
    (decodeFrom init1 raw).rs2 = (decodeFrom init2 raw).rs2 ∧
    (decodeFrom init1 raw).rd = (decodeFrom init2 raw).rd ∧
    (decodeFrom init1 raw).imm = (decodeFrom init2 raw).imm ∧
    (decodeFrom init1 raw).funct3 = (decodeFrom init2 raw).funct3 ∧
    (decodeFrom init1 raw).funct7 = (decodeFrom init2 raw).funct7 ∧
    (decodeFrom init1 raw).debugMnemonic = (decodeFrom init2 raw).debugMnemonic ∧
    decodeFrom valueInit raw = decode raw ∧
    decodeFrom init1 raw = decode raw := by
  have e1 := decodeFrom_eq init1 raw
  have e2 := decodeFrom_eq init2 raw
  rw [e1, e2]
  exact ⟨rfl, rfl, rfl, rfl, rfl, rfl, rfl, rfl, rfl, rfl, decodeFrom_eq valueInit raw, rfl⟩

theorem C16_deterministic_witness :
    decodeFrom valueInit 0xFFFFFFFF =
      decodeFrom
        { fetchInstr := 0xDEADBEEF, opcode := Opcode.SYSTEM, rs1 := 7, rs2 := 9, rd := 3,
          imm := 0x12345678, funct3 := 5, funct7 := 99, debugMnemonic := "STALE" }
        0xFFFFFFFF :=
  (C16_deterministic 0xFFFFFFFF (by decide) valueInit
    { fetchInstr := 0xDEADBEEF, opcode := Opcode.SYSTEM, rs1 := 7, rs2 := 9, rd := 3,
      imm := 0x12345678, funct3 := 5, funct7 := 99, debugMnemonic := "STALE" }).1

theorem immByField_eq (raw : Nat) :
    immByField (raw &&& 0x7F) raw = decodeImm (classify (raw &&& 0x7F)).1 raw := by
  rcases classify_cases (raw &&& 0x7F) with k | k | k | k | k | k | k | k | k | k | k
  case inr.inr.inr.inr.inr.inr.inr.inr.inr.inr =>
    obtain ⟨k1, k2⟩ := k
    rw [k2]
    simp only [knownOpcodes, List.mem_cons, List.mem_singleton, List.not_mem_nil, or_false,
      not_or] at k1
    obtain ⟨h1, h2, h3, h4, h5, h6, h7, h8, -, h10⟩ := k1
    simp only [immByField, h1, h2, h3, h4, h5, h6, h8, h7, h10, or_self, if_false]
    rfl
  all_goals
    obtain ⟨k1, k2⟩ := k
    rw [k2, k1]
    rfl

/-- C17: the variant of `decode` whose immediate is selected by the raw opcode
bits `raw & 0x7F` returns the same record as `decode`, which selects it by
the class, for every 32-bit word. -/
theorem C17_dispatch_agrees (raw : Nat) (_hraw : raw < 2 ^ 32) :
    decodeByField raw = decode raw ∧
    immByField (raw &&& 0x7F) raw = decodeImm (decode raw).opcode raw := by
  have hu : u8 (raw &&& 0x7F) = raw &&& 0x7F := by
    rw [and_0x7F, u8]
    omega
  have hi := immByField_eq raw
  refine ⟨?_, ?_⟩
  · rw [decodeByField, hu, hi, ← (decode_class raw).2.2]
  · rw [hi, ← decode_opcode]

theorem C17_dispatch_agrees_witness : decodeByField 0x800000EF = decode 0x800000EF :=
  (C17_dispatch_agrees 0x800000EF (by decide)).1

theorem encodeJ_eq (v : Int) {rd : Nat} (hd : rd < 32) :
    encodeJ v rd =
      (v % 2 ^ 21).toNat / 2 ^ 20 % 2 * 2 ^ 31 + (v % 2 ^ 21).toNat / 2 ^ 1 % 1024 * 2 ^ 21
        + (v % 2 ^ 21).toNat / 2 ^ 11 % 2 * 2 ^ 20 + (v % 2 ^ 21).toNat / 2 ^ 12 % 256 * 2 ^ 12
        + rd * 2 ^ 7 + 0x6F := by
  simp only [encodeJ, bits, Nat.reduceAdd, Nat.reduceSub, Nat.shiftLeft_eq]
  generalize (v % 2 ^ 21).toNat = u
  have ha : u / 2 ^ 20 % 2 ^ 1 < 2 := Nat.mod_lt _ (by decide)
  have hb : u / 2 ^ 1 % 2 ^ 10 < 1024 := Nat.mod_lt _ (by decide)
  have hc : u / 2 ^ 11 % 2 ^ 1 < 2 := Nat.mod_lt _ (by decide)
  have he : u / 2 ^ 12 % 2 ^ 8 < 256 := Nat.mod_lt _ (by decide)
  have ha2 : u / 2 ^ 20 % 2 ^ 1 = u / 2 ^ 20 % 2 := rfl
  have hb2 : u / 2 ^ 1 % 2 ^ 10 = u / 2 ^ 1 % 1024 := rfl
  have hc2 : u / 2 ^ 11 % 2 ^ 1 = u / 2 ^ 11 % 2 := rfl
  have he2 : u / 2 ^ 12 % 2 ^ 8 = u / 2 ^ 12 % 256 := rfl
  rw [← ha2, ← hb2, ← hc2, ← he2]
  generalize u / 2 ^ 20 % 2 ^ 1 = a at ha ⊢
  generalize u / 2 ^ 1 % 2 ^ 10 = b at hb ⊢
  generalize u / 2 ^ 11 % 2 ^ 1 = c at hc ⊢
  generalize u / 2 ^ 12 % 2 ^ 8 = e at he ⊢
  simp (disch := omega) only [or_eq_add 31, or_eq_add 21, or_eq_add 20, or_eq_add 12,
    or_eq_add 7]

theorem jal_word_fields {a b c e rd w : Nat} (ha : a < 2) (hb : b < 1024) (hc : c < 2)
    (he : e < 256) (hd : rd < 32)
    (hw : w = a * 2 ^ 31 + b * 2 ^ 21 + c * 2 ^ 20 + e * 2 ^ 12 + rd * 2 ^ 7 + 0x6F) :
    w < 2 ^ 32 ∧ w % 128 = 0x6F ∧ w / 2 ^ 7 % 32 = rd ∧ w / 2 ^ 31 % 2 = a ∧
    w / 2 ^ 21 % 1024 = b ∧ w / 2 ^ 20 % 2 = c ∧ w / 2 ^ 12 % 256 = e := by
  subst hw
  have ha2 : a = 0 ∨ a = 1 := by omega
  have hc2 : c = 0 ∨ c = 1 := by omega
  refine ⟨?_, ?_, ?_, ?_, ?_, ?_, ?_⟩ <;>
    rcases ha2 with rfl | rfl <;> rcases hc2 with rfl | rfl <;> omega

theorem toInt32_sext21 {v : Int} {u imm : Nat} (hlo : -(2 ^ 20) ≤ v) (hhi : v < 2 ^ 20)
    (hev : v % 2 = 0) (hu : u = (v % 2 ^ 21).toNat)
    (himm : imm = u / 2 ^ 20 % 2 * 0xFFF00000 + u / 2 ^ 12 % 256 * 2 ^ 12
      + u / 2 ^ 11 % 2 * 2 ^ 11 + u / 2 ^ 1 % 1024 * 2) :
    toInt32 imm = v ∧ imm = (v % 2 ^ 32).toNat := by
  have hu1 : u < 2 ^ 21 := by omega
  have hu2 : u % 2 = 0 := by omega
  have hsplit : u = u / 2 ^ 20 % 2 * 2 ^ 20 + u / 2 ^ 12 % 256 * 2 ^ 12
      + u / 2 ^ 11 % 2 * 2 ^ 11 + u / 2 ^ 1 % 1024 * 2 := by omega
  have hsign : u / 2 ^ 20 % 2 = u / 2 ^ 20 := by omega
  have himm2 : imm = u + u / 2 ^ 20 * 0xFFE00000 := by omega
  unfold toInt32
  by_cases hneg : v < 0
  · have h1 : u / 2 ^ 20 = 1 := by omega
    rw [h1] at himm2
    have h2 : ¬ imm < 2 ^ 31 := by omega
    rw [if_neg h2]
    constructor <;> omega
  · have h1 : u / 2 ^ 20 = 0 := by omega
    rw [h1] at himm2
    have h2 : imm < 2 ^ 31 := by omega
    rw [if_pos h2]
    constructor <;> omega

/-- C18: for an even offset v with -2^20 <= v < 2^20 and rd below 32, the
standard J-type word for v and rd is a 32-bit word that decodes to class JAL
with that rd and with `imm` equal to v as a 32-bit two's-complement value; so
every legal jump offset is the immediate of some JAL word. -/
theorem C18_jtype_roundtrip (v : Int) (rd : Nat) (hlo : -(2 ^ 20) ≤ v) (hhi : v < 2 ^ 20)
    (hev : v % 2 = 0) (hd : rd < 32) :
    encodeJ v rd < 2 ^ 32 ∧
    (decode (encodeJ v rd)).opcode = Opcode.JAL ∧
    (decode (encodeJ v rd)).rd = rd ∧
    toInt32 (decode (encodeJ v rd)).imm = v ∧
    (decode (encodeJ v rd)).imm = (v % 2 ^ 32).toNat ∧
    (∃ raw, raw < 2 ^ 32 ∧ (decode raw).opcode = Opcode.JAL ∧ toInt32 (decode raw).imm = v) := by
  have hw := encodeJ_eq v hd
  obtain ⟨w1, w2, w3, w4, w5, w6, w7⟩ :=
    jal_word_fields (Nat.mod_lt _ (by decide)) (Nat.mod_lt _ (by decide))
      (Nat.mod_lt _ (by decide)) (Nat.mod_lt _ (by decide)) hd hw
  have hop : encodeJ v rd &&& 0x7F = 0x6F := by rw [and_0x7F]; exact w2
  have himm := decode_imm_of_JAL hop
  rw [w4, w5, w6, w7] at himm
  have hcls : (decode (encodeJ v rd)).opcode = Opcode.JAL := by
    rw [decode_opcode, hop]; rfl
  have hrd : (decode (encodeJ v rd)).rd = rd := by
    rw [decode_eq]; exact w3
  obtain ⟨hs, hn⟩ := toInt32_sext21 hlo hhi hev rfl himm
  exact ⟨w1, hcls, hrd, hs, hn, encodeJ v rd, w1, hcls, hs⟩

theorem C18_jtype_roundtrip_witness :
    encodeJ (-2) 1 < 2 ^ 32 ∧
    (decode (encodeJ (-2) 1)).opcode = Opcode.JAL ∧
    (decode (encodeJ (-2) 1)).rd = 1 ∧
    toInt32 (decode (encodeJ (-2) 1)).imm = -2 ∧
    (decode (encodeJ (-2) 1)).imm = ((-2 : Int) % 2 ^ 32).toNat ∧
    (∃ raw, raw < 2 ^ 32 ∧ (decode raw).opcode = Opcode.JAL ∧
      toInt32 (decode raw).imm = -2) :=
  C18_jtype_roundtrip (-2) 1 (by decide) (by decide) (by decide) (by decide)

theorem field_eq_of_class {raw p : Nat} {c : Opcode} (h : (decode raw).opcode = c)
    (hp : opcodeField c = some p) : raw &&& 0x7F = p := by
  rcases field_of_class h with h1 | h1
  · rw [h1] at hp
    exact Option.noConfusion hp
  · rw [hp] at h1
    exact (Option.some.inj h1).symm

/-- C19: two 32-bit words that decode to the same class, not INVALID, with
equal rd, funct3, rs1, rs2 and funct7 are the same word; for INVALID this
fails, the words 0x00 and 0x01 agreeing on all six. -/
theorem C19_fields_determine_word (a b : Nat) (ha : a < 2 ^ 32) (hb : b < 2 ^ 32)
    (hcls : (decode a).opcode = (decode b).opcode)
    (hne : (decode a).opcode ≠ Opcode.INVALID)
    (hrd : (decode a).rd = (decode b).rd)
    (hf3 : (decode a).funct3 = (decode b).funct3)
    (hrs1 : (decode a).rs1 = (decode b).rs1)
    (hrs2 : (decode a).rs2 = (decode b).rs2)
    (hf7 : (decode a).funct7 = (decode b).funct7) :
    a = b ∧
    ((decode 0x00).opcode = (decode 0x01).opcode ∧ (decode 0x00).rd = (decode 0x01).rd ∧
      (decode 0x00).funct3 = (decode 0x01).funct3 ∧ (decode 0x00).rs1 = (decode 0x01).rs1 ∧
      (decode 0x00).rs2 = (decode 0x01).rs2 ∧ (decode 0x00).funct7 = (decode 0x01).funct7 ∧
      (0x00 : Nat) ≠ 0x01) := by
  refine ⟨?_, by decide⟩
  have hop : a &&& 0x7F = b &&& 0x7F := by
    rcases field_of_class hcls with h1 | h1
    · rw [← hcls] at h1
      exact absurd h1 hne
    · exact (field_eq_of_class rfl h1).symm
  rw [and_0x7F, and_0x7F] at hop
  rw [decode_eq, decode_eq] at hrd hf3 hrs1 hrs2 hf7
  have e1 : a / 2 ^ 7 % 32 = b / 2 ^ 7 % 32 := hrd
  have e2 : a / 2 ^ 12 % 8 = b / 2 ^ 12 % 8 := hf3
  have e3 : a / 2 ^ 15 % 32 = b / 2 ^ 15 % 32 := hrs1
  have e4 : a / 2 ^ 20 % 32 = b / 2 ^ 20 % 32 := hrs2
  have e5 : a / 2 ^ 25 % 128 = b / 2 ^ 25 % 128 := hf7
  omega

theorem C19_fields_determine_word_witness :
    (decode 0x00C58533).opcode = (decode (0x00C58532 + 1)).opcode ∧
    (0x00C58533 : Nat) = 0x00C58532 + 1 :=
  ⟨by decide,
   (C19_fields_determine_word 0x00C58533 (0x00C58532 + 1) (by decide) (by decide) (by decide)
    (by decide) (by decide) (by decide) (by decide) (by decide) (by decide)).1⟩

theorem toInt32_sext12 {m imm : Nat} (hm : m < 4096)
    (himm : imm = m / 2048 * 0xFFFFF000 + m) :
    -2048 ≤ toInt32 imm ∧ toInt32 imm ≤ 2047 := by
  have hs : m / 2048 = 0 ∨ m / 2048 = 1 := by omega
  unfold toInt32
  rcases hs with hs | hs <;> rw [hs] at himm <;> split <;> omega

theorem toInt32_branch {a b c d imm : Nat} (ha : a < 2) (hb : b < 2) (hc : c < 64)
    (hd : d < 16) (himm : imm = a * 0xFFFFF000 + b * 2 ^ 11 + c * 2 ^ 5 + d * 2) :
    toInt32 imm % 2 = 0 ∧ -4096 ≤ toInt32 imm ∧ toInt32 imm ≤ 4094 := by
  have ha2 : a = 0 ∨ a = 1 := by omega
  unfold toInt32
  rcases ha2 with rfl | rfl <;> split <;> omega

theorem toInt32_jal {a b c d imm : Nat} (ha : a < 2) (hb : b < 256) (hc : c < 2)
    (hd : d < 1024) (himm : imm = a * 0xFFF00000 + b * 2 ^ 12 + c * 2 ^ 11 + d * 2) :
    toInt32 imm % 2 = 0 ∧ -1048576 ≤ toInt32 imm ∧ toInt32 imm ≤ 1048574 := by
  have ha2 : a = 0 ∨ a = 1 := by omega
  unfold toInt32
  rcases ha2 with rfl | rfl <;> split <;> omega

theorem toInt32_utype {q imm : Nat} (himm : imm = 4096 * q) : toInt32 imm % 4096 = 0 := by
  unfold toInt32
  split <;> omega

/-- C20: read as a signed 32-bit integer, `imm` lies in the range of its
format: in [-2048, 2047] for LOAD, JALR, OP_IMM, SYSTEM and STORE, an even
number in [-4096, 4094] for BRANCH, an even number in [-1048576, 1048574] for
JAL, and a multiple of 4096 for LUI and AUIPC. -/
theorem C20_signed_range (raw : Nat) (hraw : raw < 2 ^ 32) :
    ((decode raw).opcode = Opcode.LOAD ∨ (decode raw).opcode = Opcode.JALR ∨
      (decode raw).opcode = Opcode.OP_IMM ∨ (decode raw).opcode = Opcode.SYSTEM ∨
      (decode raw).opcode = Opcode.STORE →
      -2048 ≤ toInt32 (decode raw).imm ∧ toInt32 (decode raw).imm ≤ 2047) ∧
    ((decode raw).opcode = Opcode.BRANCH →
      toInt32 (decode raw).imm % 2 = 0 ∧
      -4096 ≤ toInt32 (decode raw).imm ∧ toInt32 (decode raw).imm ≤ 4094) ∧
    ((decode raw).opcode = Opcode.JAL →
      toInt32 (decode raw).imm % 2 = 0 ∧
      -1048576 ≤ toInt32 (decode raw).imm ∧ toInt32 (decode raw).imm ≤ 1048574) ∧
    ((decode raw).opcode = Opcode.LUI ∨ (decode raw).opcode = Opcode.AUIPC →
      toInt32 (decode raw).imm % 4096 = 0) := by
  refine ⟨?_, ?_, ?_, ?_⟩
  · intro h
    have hi : ∀ hop : raw &&& 0x7F = 0x03 ∨ raw &&& 0x7F = 0x67 ∨ raw &&& 0x7F = 0x13 ∨
        raw &&& 0x7F = 0x73,
        -2048 ≤ toInt32 (decode raw).imm ∧ toInt32 (decode raw).imm ≤ 2047 :=
      fun hop => toInt32_sext12 (Nat.mod_lt _ (by decide)) (decode_imm_of_IType hop)
    rcases h with h | h | h | h | h
    · exact hi (Or.inl (field_eq_of_class h rfl))
    · exact hi (Or.inr (Or.inl (field_eq_of_class h rfl)))
    · exact hi (Or.inr (Or.inr (Or.inl (field_eq_of_class h rfl))))
    · exact hi (Or.inr (Or.inr (Or.inr (field_eq_of_class h rfl))))
    · have hop : raw &&& 0x7F = 0x23 := field_eq_of_class h rfl
      have hf := store_fields (Nat.mod_lt (raw / 2 ^ 25) (by decide : 0 < 128))
        (Nat.mod_lt (raw / 2 ^ 7) (by decide : 0 < 32))
      have himm2 : (decode raw).imm =
          (raw / 2 ^ 25 % 128 * 2 ^ 5 + raw / 2 ^ 7 % 32) / 2048 * 0xFFFFF000
            + (raw / 2 ^ 25 % 128 * 2 ^ 5 + raw / 2 ^ 7 % 32) := by
        rw [hf.2, decode_imm_of_STORE hop, Nat.add_assoc]
      exact toInt32_sext12 hf.1 himm2
  · intro h
    exact toInt32_branch (Nat.mod_lt _ (by decide)) (Nat.mod_lt _ (by decide))
      (Nat.mod_lt _ (by decide)) (Nat.mod_lt _ (by decide))
      (decode_imm_of_BRANCH (field_eq_of_class h rfl))
  · intro h
    exact toInt32_jal (Nat.mod_lt _ (by decide)) (Nat.mod_lt _ (by decide))
      (Nat.mod_lt _ (by decide)) (Nat.mod_lt _ (by decide))
      (decode_imm_of_JAL (field_eq_of_class h rfl))
  · intro h
    have himm : (decode raw).imm = 4096 * (raw / 4096) := by
      rw [(decode_class raw).2.2, ← decode_opcode]
      rcases h with h | h <;> rw [h]
      · exact decodeImm_LUI hraw
      · exact decodeImm_AUIPC hraw
    exact toInt32_utype himm

theorem C20_signed_range_witness :
    toInt32 (decode 0x80052503).imm = -2048 ∧
    -2048 ≤ toInt32 (decode 0x80052503).imm ∧ toInt32 (decode 0x80052503).imm ≤ 2047 :=
  ⟨by decide, (C20_signed_range 0x80052503 (by decide)).1 (Or.inl (by decide))⟩

end RiscvDecoder
